import Mathlib

/-!
Shallow embedding of the ezMidi library (ezMidi.c / ezMidi.h) and verification of
the specification claims about its codec, time map and player.

Conventions used throughout:
* a file or track buffer is a `List Nat`; every place where the C code converts a
  `char` to `uint8_t` the model applies `% 256`;
* `uint32_t` arithmetic is modelled as `Nat` arithmetic reduced `% 2^32` exactly
  where the C code can overflow;
* a C function that can fail (`return -1`, `return NULL`) returns an `Option`;
* C loops whose termination is not structural take an explicit fuel argument and
  return `none` when the fuel runs out (i.e. when the C loop has not terminated
  within that many iterations);
* reads of uninitialized or out-of-bounds memory are undefined behaviour in C;
  they are modelled by fixed marker values, documented at each site.
-/

namespace EzMidi

/-- `2^32`: the modulus of `uint32_t` arithmetic. -/
def U32 : Nat := 4294967296

/-- `UINT32_MAX`. -/
def U32MAX : Nat := 4294967295

/-- `b & 0xF0` on a `uint8_t` value (high nibble of a status byte). -/
def hiNibble (b : Nat) : Nat := b % 256 / 16 * 16

/-- `b & 0x0F` on a `uint8_t` value (low nibble of a status byte: the channel). -/
def loNibble (b : Nat) : Nat := b % 16

/-- `u32fromarray`: big-endian recombination of four bytes. -/
def u32fromarray (a b c d : Nat) : Nat :=
  ((a % 256 * 256 + b % 256) * 256 + c % 256) * 256 + d % 256

/-- `u16fromarray`: big-endian recombination of two bytes. -/
def u16fromarray (a b : Nat) : Nat := a % 256 * 256 + b % 256

/-- `u32toarray`: big-endian bytes of a `uint32_t`. -/
def u32toarray (v : Nat) : List Nat :=
  [v / 16777216 % 256, v / 65536 % 256, v / 256 % 256, v % 256]

/-- `u16toarray`: big-endian bytes of a `uint16_t`. -/
def u16toarray (v : Nat) : List Nat := [v / 256 % 256, v % 256]

/-- The loop of `ReadVariableLength`: one step per byte; `value` and the byte
accumulate with the same `uint32_t` wrap-around as the C code
(`*outvalue += read` / `*outvalue += read - 128; *outvalue *= 128`).
The empty list corresponds to `size_read >= bufflen`, which makes the C
function return `-1` (here: `none`). On success the C function returns the
number of bytes read and stores the value: here `some (size_read, value)`. -/
def ReadVariableLength.go : List Nat → Nat → Nat → Option (Nat × Nat)
  | [], _, _ => none
  | b :: rest, value, sizeRead =>
    let read := b % 256
    if read < 128 then
      some (sizeRead + 1, (value + read) % U32)
    else
      ReadVariableLength.go rest ((value + (read - 128)) % U32 * 128 % U32) (sizeRead + 1)

/-- `ReadVariableLength(buffer, bufflen, outvalue)` where the list holds exactly
the `bufflen` readable bytes. -/
def ReadVariableLength (buffer : List Nat) : Option (Nat × Nat) :=
  ReadVariableLength.go buffer 0 0

/-- The byte-counting loop of `WriteVariableLength`
(`while ((v /= 128) > 0) i++;` followed by `j = i + 1`): the number of bytes
the encoder writes for `value`. -/
def vlqLen (value : Nat) : Nat :=
  if value < 128 then 1 else 1 + vlqLen (value / 128)
decreasing_by exact Nat.div_lt_self (by omega) (by omega)

/-- The continuation bytes written by the backwards-filling loop of
`WriteVariableLength` (`buffer[i] = ((value /= 128) & 0x7F) | 0x80`), in
buffer order: the 7-bit digits of `w`, most significant first, each with the
high bit set. `w` is `value / 128`. -/
def vlqCont (w : Nat) : List Nat :=
  if w = 0 then [] else vlqCont (w / 128) ++ [w % 128 + 128]
decreasing_by exact Nat.div_lt_self (by omega) (by omega)

/-- The byte string produced by `WriteVariableLength`: the continuation bytes
followed by the final byte `value & 0x7f`. -/
def vlqBytes (value : Nat) : List Nat :=
  vlqCont (value / 128) ++ [value % 128]

/-- `WriteVariableLength` with its buffer check
(`if ((j = i+1) > bufflen) return -1`). -/
def WriteVariableLength (bufflen value : Nat) : Option (List Nat) :=
  if vlqLen value ≤ bufflen then some (vlqBytes value) else none

/-- The decoded payload of one MIDI event: the union of the
`MidiEventData_*_t` structs of ezMidi.h, tagged by variant.  `uninit` stands
for a payload that was allocated but never written because `read_data`
returned `-1`: in C that memory holds unspecified garbage. -/
inductive EventData where
  | text (length : Nat) (text : List Nat)
  | sequenceNumber (number : Nat)
  | channelPrefix (channel : Nat)
  | midiPort (port : Nat)
  | setTempo (tempo : Nat)
  | smpteOffset (hr mn se fr ff : Nat)
  | timeSignature (nn dd cc bb : Nat)
  | keySignature (sf mi : Nat)
  | endOfTrack
  | note (channel key velocity onOff : Nat)
  | polyphonicKeyPressure (channel key pressure : Nat)
  | controlChange (channel control value : Nat)
  | programChange (channel program : Nat)
  | channelPressure (channel pressure : Nat)
  | pitchWheelChange (channel wheel : Nat)
  | uninit
  deriving DecidableEq

/-- `MidiEvent_t`: delta time, the `type` of the interface selected by
`MidiEvent_Create`, and the decoded payload. -/
structure MidiEvent where
  deltaTime : Nat
  type : Nat
  data : EventData
  deriving DecidableEq

/-- An event slot that was appended to the track list but that
`MidiEvent_Create` failed to fill: every field is uninitialized memory.  The
contents are unknowable; the model uses a fixed marker (`type` is outside the
byte range so it collides with no real interface type). -/
def garbageEvent : MidiEvent := ⟨0, 256, .uninit⟩

instance : Inhabited MidiEvent := ⟨garbageEvent⟩

/-- `sprintf(dst, "%.*s", len, src)` copies at most `len` characters of `src`,
stopping at a NUL byte.  Conversion of each copied char to `uint8_t` is `% 256`. -/
def cstrTrunc : List Nat → List Nat
  | [] => []
  | b :: rest => if b % 256 = 0 then [] else b % 256 :: cstrTrunc rest

/-- `read_data_Text`: `buffer` starts at the length octet.  The C code rejects
`len > MidiEventData_Text_Max_Length - 1`, i.e. `len > 254`, and otherwise
stores the length and the `%.*s`-copied text, returning `1 + len` bytes read.
If the buffer is shorter than `1 + len` the C code reads past its end
(unspecified bytes); the model just reads the bytes that are present. -/
def read_data_Text (buffer : List Nat) : Option (EventData × Nat) :=
  let len := buffer.getD 0 0 % 256
  if 254 < len then none
  else some (.text len (cstrTrunc ((buffer.drop 1).take len)), 1 + len)

/-- `read_data_SequenceNumber`: `FF 00 02 nn-nn`; `assert_len(2)`. -/
def read_data_SequenceNumber (buffer : List Nat) : Option (EventData × Nat) :=
  let len := buffer.getD 0 0 % 256
  if len ≠ 2 then none
  else some (.sequenceNumber ((buffer.getD 1 0 % 256) * 256 + buffer.getD 2 0 % 256), 3)

/-- `read_data_ChannelPrefix`: `FF 20 01 cc`; `assert_len(1)`.  A channel above
15 only triggers a warning. -/
def read_data_ChannelPrefix (buffer : List Nat) : Option (EventData × Nat) :=
  let len := buffer.getD 0 0 % 256
  if len ≠ 1 then none
  else some (.channelPrefix (buffer.getD 1 0 % 256), 2)

/-- `read_data_MidiPort`: `FF 21 01 pp`; `assert_len(1)`. -/
def read_data_MidiPort (buffer : List Nat) : Option (EventData × Nat) :=
  let len := buffer.getD 0 0 % 256
  if len ≠ 1 then none
  else some (.midiPort (buffer.getD 1 0 % 256), 2)

/-- `read_data_SetTempo`: `FF 51 03 tt-tt-tt`; `assert_len(3)`. -/
def read_data_SetTempo (buffer : List Nat) : Option (EventData × Nat) :=
  let len := buffer.getD 0 0 % 256
  if len ≠ 3 then none
  else some (.setTempo (((buffer.getD 1 0 % 256) * 256 + buffer.getD 2 0 % 256) * 256
      + buffer.getD 3 0 % 256), 4)

/-- `read_data_SMPTEoffset`: `FF 54 05 hr mn se fr ff`; `assert_len(5)`. -/
def read_data_SMPTEoffset (buffer : List Nat) : Option (EventData × Nat) :=
  let len := buffer.getD 0 0 % 256
  if len ≠ 5 then none
  else some (.smpteOffset (buffer.getD 1 0 % 256) (buffer.getD 2 0 % 256)
      (buffer.getD 3 0 % 256) (buffer.getD 4 0 % 256) (buffer.getD 5 0 % 256), 6)

/-- `read_data_TimeSignature`: `FF 58 04 nn dd cc bb`; `assert_len(4)`. -/
def read_data_TimeSignature (buffer : List Nat) : Option (EventData × Nat) :=
  let len := buffer.getD 0 0 % 256
  if len ≠ 4 then none
  else some (.timeSignature (buffer.getD 1 0 % 256) (buffer.getD 2 0 % 256)
      (buffer.getD 3 0 % 256) (buffer.getD 4 0 % 256), 5)

/-- `read_data_KeySignature`: `FF 59 02 sf mi`; `assert_len(2)`.  An `mi`
outside {0,1} only triggers a warning. -/
def read_data_KeySignature (buffer : List Nat) : Option (EventData × Nat) :=
  let len := buffer.getD 0 0 % 256
  if len ≠ 2 then none
  else some (.keySignature (buffer.getD 1 0 % 256) (buffer.getD 2 0 % 256), 3)

/-- `read_data_EndOfTrack`: `FF 2F 00`; `assert_len(0)`. -/
def read_data_EndOfTrack (buffer : List Nat) : Option (EventData × Nat) :=
  let len := buffer.getD 0 0 % 256
  if len ≠ 0 then none
  else some (.endOfTrack, 1)

/-- `read_data_Note`: two operand bytes; channel and on/off flag come from the
full status byte passed as `type`. -/
def read_data_Note (buffer : List Nat) (type : Nat) : Option (EventData × Nat) :=
  some (.note (loNibble type) (buffer.getD 0 0 % 256) (buffer.getD 1 0 % 256) (hiNibble type), 2)

/-- `read_data_PolyphonicKeyPressure`. -/
def read_data_PolyphonicKeyPressure (buffer : List Nat) (type : Nat) : Option (EventData × Nat) :=
  some (.polyphonicKeyPressure (loNibble type) (buffer.getD 0 0 % 256) (buffer.getD 1 0 % 256), 2)

/-- `read_data_ControlChange`. -/
def read_data_ControlChange (buffer : List Nat) (type : Nat) : Option (EventData × Nat) :=
  some (.controlChange (loNibble type) (buffer.getD 0 0 % 256) (buffer.getD 1 0 % 256), 2)

/-- `read_data_ProgramChange`: one operand byte. -/
def read_data_ProgramChange (buffer : List Nat) (type : Nat) : Option (EventData × Nat) :=
  some (.programChange (loNibble type) (buffer.getD 0 0 % 256), 1)

/-- `read_data_ChannelPressure`: one operand byte. -/
def read_data_ChannelPressure (buffer : List Nat) (type : Nat) : Option (EventData × Nat) :=
  some (.channelPressure (loNibble type) (buffer.getD 0 0 % 256), 1)

/-- `read_data_PitchWheelChange`: `wheel = b0 + 128*b1` (LSB first). -/
def read_data_PitchWheelChange (buffer : List Nat) (type : Nat) : Option (EventData × Nat) :=
  some (.pitchWheelChange (loNibble type) (buffer.getD 0 0 % 256 + 128 * (buffer.getD 1 0 % 256)), 2)

/-- The ten interface types whose `read_data`/`write_data` is
`read_data_Text`/`write_data_Text` (text-like metas, SysEx 0x7F, SysEx2 0xF0). -/
def isTextType (t : Nat) : Bool :=
  t == 1 || t == 2 || t == 3 || t == 4 || t == 5 || t == 6 || t == 7 || t == 8 ||
  t == 0x7F || t == 0xF0

/-- The `InterfaceTable` lookup performed by `MidiEvent_Create`: whether a row
with this `type` exists. -/
def interfaceExists (type : Nat) : Bool :=
  isTextType type ||
  type == 0x00 || type == 0x20 || type == 0x21 || type == 0x2F || type == 0x51 ||
  type == 0x54 || type == 0x58 || type == 0x59 ||
  type == 0x90 || type == 0x80 || type == 0xA0 || type == 0xB0 || type == 0xC0 ||
  type == 0xD0 || type == 0xE0

/-- Dispatch through `event->interface->read_data`, keyed by the `type` given
to `MidiEvent_Create`; channel decoders additionally receive the full status
byte (the C `type` argument of `read_data`). -/
def readEventData (createType statusByte : Nat) (buffer : List Nat) : Option (EventData × Nat) :=
  if isTextType createType then read_data_Text buffer
  else if createType = 0x00 then read_data_SequenceNumber buffer
  else if createType = 0x20 then read_data_ChannelPrefix buffer
  else if createType = 0x21 then read_data_MidiPort buffer
  else if createType = 0x2F then read_data_EndOfTrack buffer
  else if createType = 0x51 then read_data_SetTempo buffer
  else if createType = 0x54 then read_data_SMPTEoffset buffer
  else if createType = 0x58 then read_data_TimeSignature buffer
  else if createType = 0x59 then read_data_KeySignature buffer
  else if createType = 0x90 ∨ createType = 0x80 then read_data_Note buffer statusByte
  else if createType = 0xA0 then read_data_PolyphonicKeyPressure buffer statusByte
  else if createType = 0xB0 then read_data_ControlChange buffer statusByte
  else if createType = 0xC0 then read_data_ProgramChange buffer statusByte
  else if createType = 0xD0 then read_data_ChannelPressure buffer statusByte
  else if createType = 0xE0 then read_data_PitchWheelChange buffer statusByte
  else none

/-- The status-byte handling of one `MidiTrack_Read` iteration (the block just
after the delta time is read).  Inputs: the byte at the current read position,
the byte after it (only consulted for metas) and the current running status.
Output `(consumed, createType, statusByte, runningStatus)`:
* `0xFF`: a meta event; the status byte and the meta type are consumed; the
  type given to `MidiEvent_Create` is the meta type; the running status is left
  as it was (the C code never touches `running_status` in this branch);
* a data byte `< 0x80`: running status is in effect; nothing is consumed (the
  C code backs up with `read--`); the status byte is `running_status`;
* otherwise a new channel status: one byte consumed, `running_status` updated;
  `MidiEvent_Create` receives `statusByte & 0xF0`. -/
def statusStep (sb0 metaByte runningStatus : Nat) : Nat × Nat × Nat × Nat :=
  if sb0 = 0xFF then (2, metaByte, metaByte, runningStatus)
  else if sb0 < 0x80 then (0, hiNibble runningStatus, runningStatus, runningStatus)
  else (1, hiNibble sb0, sb0, sb0)

/-- The `do { ... } while (read < length)` loop of `MidiTrack_Read`, one fuel
unit per iteration.  `none` means the loop has not terminated within `fuel`
iterations (the C loop can in fact diverge, see the round-trip counterexample).
All the C early exits keep the events decoded so far:
* a failed delta-time read returns with the current list;
* a failed `MidiEvent_Create` appends the reallocated-but-uninitialized slot
  (`garbageEvent`) and breaks;
* a `read_data` returning `-1` appends the event with its uninitialized
  payload and adds `-1` to `read`. -/
def MidiTrack_Read.go (buffer : List Nat) (length : Nat) :
    Nat → Nat → Nat → List MidiEvent → Option (List MidiEvent)
  | 0, _, _, _ => none
  | fuel + 1, read, runningStatus, events =>
    match ReadVariableLength ((buffer.drop read).take (length - read)) with
    | none => some events
    | some (varlen, deltaTime) =>
      let r1 := read + varlen
      let (consumed, createType, statusByte, rs2) :=
        statusStep (buffer.getD r1 0 % 256) (buffer.getD (r1 + 1) 0 % 256) runningStatus
      let r2 := r1 + consumed
      if interfaceExists createType then
        match readEventData createType statusByte (buffer.drop r2) with
        | some (data, dataRead) =>
          let events2 := events ++ [⟨deltaTime, createType, data⟩]
          if r2 + dataRead < length then
            MidiTrack_Read.go buffer length fuel (r2 + dataRead) rs2 events2
          else some events2
        | none =>
          let events2 := events ++ [⟨deltaTime, createType, .uninit⟩]
          if r2 - 1 < length then
            MidiTrack_Read.go buffer length fuel (r2 - 1) rs2 events2
          else some events2
      else some (events ++ [garbageEvent])

/-- `MidiTrack_Read(buffer, length, track)` on an initially empty track. -/
def MidiTrack_Read (fuel : Nat) (buffer : List Nat) (length : Nat) : Option (List MidiEvent) :=
  MidiTrack_Read.go buffer length fuel 0 0 []

/-- `MidiTrack_t`: the decoded event list (its `NumEvents` is the length). -/
structure MidiTrack where
  Events : List MidiEvent
  deriving DecidableEq

instance : Inhabited MidiTrack := ⟨⟨[]⟩⟩

/-- `MidiFile_t`. -/
structure MidiFile where
  Format : Nat
  nTrks : Nat
  PulsesPerQuarterNote : Nat
  Tracks : List MidiTrack
  deriving DecidableEq

/-- The mutable state of `MidiFile_Open`'s chunk loop: the fields of the
`MidiFile_t` under construction plus the `uint8_t trackNumber` counter.
`Tracks = none` models the `NULL` pointer before the header chunk was seen. -/
structure OpenState where
  Format : Nat := 0
  nTrks : Nat := 0
  ppq : Nat := 0
  Tracks : Option (List MidiTrack) := none
  trackNumber : Nat := 0

/-- The chunk loop of `MidiFile_Open`, one fuel unit per chunk.  `trackFuel`
is passed on to each `MidiTrack_Read`.  Returns `none` for every path that
ends in `goto error` (the C function returns `NULL` after freeing the partial
file), and `some file` when `feof` ends the loop cleanly:
* fewer than 4 bytes left: the `fread` of the chunk tag comes up short with
  `feof` set, which breaks out of the loop without error;
* fewer than 4 further bytes for the chunk length: the unchecked `fread`
  leaves part of the length uninitialized — unspecified behaviour, modelled
  as an error;
* tag `MThd`: length must be 6; the three header words are decoded;
  format 0 with `ntrks != 1` is an error; `Tracks` is calloc'd (all empty);
* tag `MTrk`: error if no header yet or `trackNumber >= nTrks`; otherwise the
  body is read with `MidiTrack_Read` into slot `trackNumber` and the `uint8_t`
  counter is incremented (mod 256);
* any other tag: `goto error`. -/
def MidiFile_Open.go (trackFuel : Nat) : Nat → List Nat → OpenState → Option MidiFile
  | 0, _, _ => none
  | fuel + 1, bytes, st =>
    if bytes.length < 4 then
      some ⟨st.Format, st.nTrks, st.ppq, st.Tracks.getD []⟩
    else
      let tag := bytes.take 4
      let rest := bytes.drop 4
      if rest.length < 4 then none
      else
        let chunklength := u32fromarray (rest.getD 0 0) (rest.getD 1 0) (rest.getD 2 0) (rest.getD 3 0)
        let body := rest.drop 4
        if tag = [0x4D, 0x54, 0x68, 0x64] then
          if chunklength ≠ 6 then none
          else if body.length < 6 then none
          else
            let format := u16fromarray (body.getD 0 0) (body.getD 1 0)
            let ntrks := u16fromarray (body.getD 2 0) (body.getD 3 0)
            let ppq := u16fromarray (body.getD 4 0) (body.getD 5 0)
            if format = 0 ∧ ntrks ≠ 1 then none
            else
              MidiFile_Open.go trackFuel fuel (body.drop 6)
                { st with Format := format, nTrks := ntrks, ppq := ppq,
                          Tracks := some (List.replicate ntrks ⟨[]⟩) }
        else if tag = [0x4D, 0x54, 0x72, 0x6B] then
          match st.Tracks with
          | none => none
          | some tracks =>
            if st.nTrks ≤ st.trackNumber then none
            else if body.length < chunklength then none
            else
              match MidiTrack_Read trackFuel (body.take chunklength) chunklength with
              | none => none
              | some events =>
                MidiFile_Open.go trackFuel fuel (body.drop chunklength)
                  { st with Tracks := some (tracks.set st.trackNumber ⟨events⟩),
                            trackNumber := (st.trackNumber + 1) % 256 }
        else none

/-- `MidiFile_Open` on the byte contents of the file. -/
def MidiFile_Open (fuel trackFuel : Nat) (bytes : List Nat) : Option MidiFile :=
  MidiFile_Open.go trackFuel fuel bytes {}

/-- `write_data_Text`.  After `read_data_Text` the 255-byte `text` buffer holds
the stored string, its NUL terminator, and then bytes that were never written;
the `memcpy` of `length` bytes therefore emits the string, a 0, and
unspecified bytes.  The unspecified tail is modelled as zeros (any re-decode
stops at the first NUL, so the choice is unobservable through the codec).
SysEx2 (0xF0) events are framed `F0 len <data>`, every other text-like type
`FF type len <data>`. -/
def write_data_Text (type length : Nat) (text : List Nat) : List Nat :=
  let payload := text.take length ++ List.replicate (length - text.length) 0
  if type = 0xF0 then 0xF0 :: length % 256 :: payload
  else 0xFF :: type % 256 :: length % 256 :: payload

/-- `write_data_SequenceNumber`: `FF 00 02 n/256 n%256` (chars, so mod 256). -/
def write_data_SequenceNumber (number : Nat) : List Nat :=
  [0xFF, 0x00, 2, number / 256 % 256, number % 256]

/-- `write_data_ChannelPrefix`. -/
def write_data_ChannelPrefix (channel : Nat) : List Nat := [0xFF, 0x20, 1, channel % 256]

/-- `write_data_MidiPort`. -/
def write_data_MidiPort (port : Nat) : List Nat := [0xFF, 0x21, 1, port % 256]

/-- `write_data_SetTempo`: `FF 51 03` then the tempo bytes big-endian. -/
def write_data_SetTempo (tempo : Nat) : List Nat :=
  [0xFF, 0x51, 3, tempo / 65536 % 256, tempo / 256 % 256, tempo % 256]

/-- `write_data_SMPTEoffset` is `/* TODO */ return 0;`: it writes nothing. -/
def write_data_SMPTEoffset : List Nat := []

/-- `write_data_TimeSignature`. -/
def write_data_TimeSignature (nn dd cc bb : Nat) : List Nat :=
  [0xFF, 0x58, 4, nn % 256, dd % 256, cc % 256, bb % 256]

/-- `write_data_KeySignature`. -/
def write_data_KeySignature (sf mi : Nat) : List Nat := [0xFF, 0x59, 2, sf % 256, mi % 256]

/-- `write_data_EndOfTrack`. -/
def write_data_EndOfTrack : List Nat := [0xFF, 0x2F, 0]

/-- `write_data_Note`: `{note->OnOff | note->channel, key, velocity}`. -/
def write_data_Note (channel key velocity onOff : Nat) : List Nat :=
  [Nat.lor (onOff % 256) (channel % 256), key % 256, velocity % 256]

/-- `write_data_PolyphonicKeyPressure`: status `0xA0 | channel`. -/
def write_data_PolyphonicKeyPressure (channel key pressure : Nat) : List Nat :=
  [Nat.lor 0xA0 (channel % 256), key % 256, pressure % 256]

/-- `write_data_ControlChange`: status `0xB0 | channel`. -/
def write_data_ControlChange (channel control value : Nat) : List Nat :=
  [Nat.lor 0xB0 (channel % 256), control % 256, value % 256]

/-- `write_data_ProgramChange`: status `0xC0 | channel`. -/
def write_data_ProgramChange (channel program : Nat) : List Nat :=
  [Nat.lor 0xC0 (channel % 256), program % 256]

/-- `write_data_ChannelPressure`: status `0xD0 | channel`. -/
def write_data_ChannelPressure (channel pressure : Nat) : List Nat :=
  [Nat.lor 0xD0 (channel % 256), pressure % 256]

/-- `write_data_PitchWheelChange`: status `0xE0 | channel`, then
`wheel % 128` and `wheel / 128` (the latter cast to char, so mod 256). -/
def write_data_PitchWheelChange (channel wheel : Nat) : List Nat :=
  [Nat.lor 0xE0 (channel % 256), wheel % 128, wheel / 128 % 256]

/-- Dispatch through `event->interface->write_data`, keyed by the interface
`type`.  A payload that does not match the interface would be reinterpreted
memory in C (unspecified); such mismatches are modelled as an empty output. -/
def writeEventData (type : Nat) (data : EventData) : List Nat :=
  if isTextType type then
    match data with
    | .text l t => write_data_Text type l t
    | _ => []
  else if type = 0x00 then
    match data with
    | .sequenceNumber n => write_data_SequenceNumber n
    | _ => []
  else if type = 0x20 then
    match data with
    | .channelPrefix c => write_data_ChannelPrefix c
    | _ => []
  else if type = 0x21 then
    match data with
    | .midiPort p => write_data_MidiPort p
    | _ => []
  else if type = 0x2F then
    match data with
    | .endOfTrack => write_data_EndOfTrack
    | _ => []
  else if type = 0x51 then
    match data with
    | .setTempo t => write_data_SetTempo t
    | _ => []
  else if type = 0x54 then write_data_SMPTEoffset
  else if type = 0x58 then
    match data with
    | .timeSignature nn dd cc bb => write_data_TimeSignature nn dd cc bb
    | _ => []
  else if type = 0x59 then
    match data with
    | .keySignature sf mi => write_data_KeySignature sf mi
    | _ => []
  else if type = 0x90 ∨ type = 0x80 then
    match data with
    | .note ch k v oo => write_data_Note ch k v oo
    | _ => []
  else if type = 0xA0 then
    match data with
    | .polyphonicKeyPressure ch k p => write_data_PolyphonicKeyPressure ch k p
    | _ => []
  else if type = 0xB0 then
    match data with
    | .controlChange ch c v => write_data_ControlChange ch c v
    | _ => []
  else if type = 0xC0 then
    match data with
    | .programChange ch p => write_data_ProgramChange ch p
    | _ => []
  else if type = 0xD0 then
    match data with
    | .channelPressure ch p => write_data_ChannelPressure ch p
    | _ => []
  else if type = 0xE0 then
    match data with
    | .pitchWheelChange ch w => write_data_PitchWheelChange ch w
    | _ => []
  else []

/-- One event as emitted by the `MidiFile_Save` track loop: the delta time as a
VLQ followed by the `write_data` output.  `WriteVariableLength(.., 5, ..)`
cannot fail for a `uint32_t` delta (at most 5 bytes are needed), so the bytes
are emitted unconditionally. -/
def encodeEvent (e : MidiEvent) : List Nat :=
  vlqBytes e.deltaTime ++ writeEventData e.type e.data

/-- The serialized body of one track. -/
def encodeTrackBody (events : List MidiEvent) : List Nat :=
  (events.map encodeEvent).flatten

/-- `MidiFile_Save`: the `MThd` chunk (size hard-coded `00 00 00 06`) followed
by one `MTrk` chunk per track.  The chunk length field is the `uint32_t`
`trackLen`, and the following `fwrite` writes `trackLen` bytes, so a body of
`2^32` bytes or more would be truncated (hence the `take`). -/
def MidiFile_Save (save : MidiFile) : List Nat :=
  [0x4D, 0x54, 0x68, 0x64, 0, 0, 0, 6] ++
  u16toarray save.Format ++ u16toarray save.nTrks ++ u16toarray save.PulsesPerQuarterNote ++
  (save.Tracks.map fun tr =>
    [0x4D, 0x54, 0x72, 0x6B] ++ u32toarray (encodeTrackBody tr.Events).length ++
    (encodeTrackBody tr.Events).take ((encodeTrackBody tr.Events).length % U32)).flatten

/-- A call into the platform synth / clock layer made by `MidiFile_Play`. -/
inductive SinkCall where
  | playNote (key channel velocity : Nat) (state : Bool)
  | setInstrument (channel program : Nat)
  | sleep (us : Nat)
  deriving DecidableEq

/-- Does the call drive the MIDI device (as opposed to the sleep primitive)? -/
def SinkCall.isDeviceCall : SinkCall → Bool
  | .playNote _ _ _ _ => true
  | .setInstrument _ _ => true
  | .sleep _ => false

/-- A player callback: a state-passing version of the C `playerCallback`
function pointer, whose C result is the `Player_Callback_Result_t` integer.
The state component models whatever external memory the callback mutates
(the time-map list for `Midi_MapAbsoluteTime`). -/
def PlayerCb (σ : Type) : Type := σ → MidiEvent → Nat → Nat → Nat → σ × Int

/-- `Player_Callback_PlayEvent`. -/
def Player_Callback_PlayEvent : Int := 1

/-- `Player_Callback_IgnoreEvent`. -/
def Player_Callback_IgnoreEvent : Int := 0

/-- `Player_Callback_Abort`. -/
def Player_Callback_Abort : Int := -1

/-- The local state of `MidiFile_Play`, together with the observable outputs:
the sink-call trace, the log of callback invocations
`(event, track, timeTicks, timeUs)` in order, and the callback's state. -/
structure PlayerState (σ : Type) where
  waitTicks : List Nat
  currentEvent : List Nat
  tickDurationUs : Nat
  countFinished : Nat
  minimumWaitTicks : Nat
  ticks : Nat
  usecs : Nat
  trace : List SinkCall
  log : List (MidiEvent × Nat × Nat × Nat)
  cbState : σ

/-- `uint32_t` subtraction `a - b` with wrap-around. -/
def sub32 (a b : Nat) : Nat := (a % U32 + U32 - b % U32) % U32

/-- The events of track `t`.  `midi->Tracks[t]` for `t` beyond the allocated
array is undefined behaviour in C; the model yields the empty track. -/
def trackEvents (midi : MidiFile) (t : Nat) : List MidiEvent :=
  (midi.Tracks.getD t ⟨[]⟩).Events

/-- `&midi->Tracks[t].Events[i]`.  An index past `NumEvents` reads memory
beyond the array (undefined behaviour), modelled by `garbageEvent`. -/
def eventAt (midi : MidiFile) (t i : Nat) : MidiEvent :=
  (trackEvents midi t).getD i garbageEvent

/-- Fields read out of `event->data` after the C code casts it to
`MidiEventData_NoteEvent_t*`: when the payload really is a note event they are
its fields, otherwise the C code reads reinterpreted memory (unspecified),
modelled as 0. -/
def noteKey : EventData → Nat
  | .note _ k _ _ => k
  | _ => 0

/-- See `noteKey`. -/
def noteChannel : EventData → Nat
  | .note c _ _ _ => c
  | _ => 0

/-- See `noteKey`. -/
def noteVelocity : EventData → Nat
  | .note _ _ v _ => v
  | _ => 0

/-- `((MidiEventData_SetTempo_t*)event->data)->tempo`, 0 if reinterpreted. -/
def tempoOf : EventData → Nat
  | .setTempo t => t
  | _ => 0

/-- `((MidiEventData_ProgramChange_t*)event->data)->channel`, 0 if reinterpreted. -/
def progChannel : EventData → Nat
  | .programChange c _ => c
  | _ => 0

/-- `((MidiEventData_ProgramChange_t*)event->data)->program`, 0 if reinterpreted. -/
def progProgram : EventData → Nat
  | .programChange _ p => p
  | _ => 0

/-- Firing the due event of track `t` (the body after `waitTicks[t]` reached
0): invoke the callback, honour `Abort` (`true` in the second component means
`return`), skip side effects on `Ignore` unless the event is a SetTempo, then
dispatch — notes to `MidiDevice_PlayNote` with `state = (type == NoteOn)` when
`clock_us >= start_usec`, SetTempo into `tickDurationUs = tempo / ppq`,
ProgramChange to `MidiDevice_SetChannelInstrument` — and finally advance the
track (the `uint16_t` event index wraps at 65536; a track with no further
event gets `waitTicks = UINT32_MAX` and bumps the `uint16_t` finished
counter). -/
def fireEvent {σ : Type} (midi : MidiFile) (startUsec : Nat) (cb : PlayerCb σ) (t : Nat)
    (st : PlayerState σ) : PlayerState σ × Bool :=
  let event := eventAt midi t (st.currentEvent.getD t 0)
  let type := event.type
  let cbOut := cb st.cbState event t st.ticks st.usecs
  let st1 := { st with cbState := cbOut.1, log := st.log ++ [(event, t, st.ticks, st.usecs)] }
  if cbOut.2 = Player_Callback_Abort then (st1, true)
  else
    let st2 :=
      if cbOut.2 = Player_Callback_IgnoreEvent ∧ type ≠ 0x51 then st1
      else if (type = 0x90 ∨ type = 0x80) ∧ startUsec ≤ st1.usecs then
        { st1 with trace := st1.trace ++
            [.playNote (noteKey event.data) (noteChannel event.data) (noteVelocity event.data)
              (type == 0x90)] }
      else if type = 0x51 then
        { st1 with tickDurationUs := tempoOf event.data / midi.PulsesPerQuarterNote }
      else if type = 0xC0 then
        { st1 with trace := st1.trace ++ [.setInstrument (progChannel event.data) (progProgram event.data)] }
      else st1
    let ce := (st2.currentEvent.getD t 0 + 1) % 65536
    let numEvents := (trackEvents midi t).length
    let wt := if numEvents ≤ ce then U32MAX else (eventAt midi t ce).deltaTime % U32
    let cf := if numEvents ≤ ce then (st2.countFinished + 1) % 65536 else st2.countFinished
    ({ st2 with currentEvent := st2.currentEvent.set t ce,
                waitTicks := st2.waitTicks.set t wt,
                countFinished := cf,
                minimumWaitTicks := min st2.minimumWaitTicks wt }, false)

/-- The `for (trackIndex ...)` loop of the scheduler: subtract the elapsed
ticks from every track's wait; a track that did not reach 0 only feeds the
minimum; a track at 0 fires.  The `Bool` is the abort flag (a `return` from
inside the loop). -/
def tracksPass {σ : Type} (midi : MidiFile) (startUsec : Nat) (cb : PlayerCb σ) (d : Nat) :
    List Nat → PlayerState σ → PlayerState σ × Bool
  | [], st => (st, false)
  | t :: rest, st =>
    let w := sub32 (st.waitTicks.getD t 0) d
    let st1 := { st with waitTicks := st.waitTicks.set t w }
    if w ≠ 0 then
      tracksPass midi startUsec cb d rest
        { st1 with minimumWaitTicks := min st1.minimumWaitTicks w }
    else
      match fireEvent midi startUsec cb t st1 with
      | (st2, true) => (st2, true)
      | (st2, false) => tracksPass midi startUsec cb d rest st2

/-- The `while (countFinishedTracks < midi->nTrks)` loop, one fuel unit per
iteration; on fuel exhaustion the state reached so far is returned.  Each
iteration advances the two clocks by `minimumWaitTicks` (uint32), sleeps when
`clock_us` has reached `start_usec` (the fast-forward guard), resets the
minimum, and walks all tracks. -/
def playLoop {σ : Type} (midi : MidiFile) (startUsec : Nat) (cb : PlayerCb σ) :
    Nat → PlayerState σ → PlayerState σ
  | 0, st => st
  | fuel + 1, st =>
    if st.countFinished < midi.nTrks then
      let d := st.minimumWaitTicks
      let st1 := { st with ticks := (st.ticks + d) % U32,
                           usecs := (st.usecs + st.tickDurationUs * d) % U32 }
      let st2 :=
        if startUsec ≤ st1.usecs then
          { st1 with trace := st1.trace ++ [.sleep (st1.tickDurationUs * d % U32)] }
        else st1
      let st3 := { st2 with minimumWaitTicks := U32MAX }
      match tracksPass midi startUsec cb d (List.range midi.nTrks) st3 with
      | (st4, true) => st4
      | (st4, false) => playLoop midi startUsec cb fuel st4
    else st

/-- `MidiFile_Play(midi, start_usec, cbFunc)` from its initial state
(`TickDurationUs = 2602`, all waits and indices 0). -/
def MidiFile_Play {σ : Type} (midi : MidiFile) (startUsec : Nat) (cb : PlayerCb σ) (s0 : σ)
    (fuel : Nat) : PlayerState σ :=
  playLoop midi startUsec cb fuel
    { waitTicks := List.replicate midi.nTrks 0,
      currentEvent := List.replicate midi.nTrks 0,
      tickDurationUs := 2602,
      countFinished := 0,
      minimumWaitTicks := 0,
      ticks := 0,
      usecs := 0,
      trace := [],
      log := [],
      cbState := s0 }

/-- `trivial_callback`: always `Player_Callback_PlayEvent`. -/
def trivial_callback : PlayerCb Unit := fun s _ _ _ _ => (s, Player_Callback_PlayEvent)

/-- `MidiAbsoluteTimeMap_t`.  `OnEvent`/`OffEvent` are pointers into the file
in C; the model stores the event values. -/
structure MidiAbsoluteTimeMap where
  track : Nat
  OnEvent : MidiEvent
  OffEvent : Option MidiEvent
  startTime : Nat
  endTime : Nat
  deriving DecidableEq

instance : Inhabited MidiAbsoluteTimeMap := ⟨⟨0, garbageEvent, none, 0, 0⟩⟩

/-- The `for (i = numEvents - 1; i >= 0; i--)` scan of `playerCb` inside
`Midi_MapAbsoluteTime`, looking for the most recent unterminated entry with
matching channel, track and key whose on-event really is a NoteOn; the first
argument is `i + 1` (so `0` means the scan ran out).  Entries whose `OnEvent`
payload is not a note would make the C code compare reinterpreted memory;
entries appended by `playerCb` always hold notes, and the model skips any
others. -/
def mapCloseScan (e : MidiEvent) (track timeUs thisCh thisKey : Nat) :
    Nat → List MidiAbsoluteTimeMap → List MidiAbsoluteTimeMap
  | 0, list => list
  | i + 1, list =>
    let m := list.getD i default
    if m.OffEvent ≠ none then mapCloseScan e track timeUs thisCh thisKey i list
    else
      match m.OnEvent.data with
      | .note ch key _ oo =>
        if ch = thisCh ∧ m.track = track ∧ key = thisKey ∧ oo = 0x90 then
          list.set i { m with OffEvent := some e, endTime := timeUs }
        else mapCloseScan e track timeUs thisCh thisKey i list
      | _ => mapCloseScan e track timeUs thisCh thisKey i list

/-- The nested `playerCb` of `Midi_MapAbsoluteTime`, as a state-passing
callback over the accumulated list: a NoteOff — or a NoteOn whose data says
NoteOff or has velocity 0 — runs the closing scan; any other NoteOn/NoteOff
appends an open entry with `endTime = UINT32_MAX`; everything else (and an
event whose payload is missing, the `!event->data` sanity check) falls
through to `bail`.  The result is always `Player_Callback_IgnoreEvent`. -/
def mapCb : PlayerCb (List MidiAbsoluteTimeMap) := fun list event track _ timeUs =>
  if event.type = 0x80 ∨ event.type = 0x90 then
    match event.data with
    | .note ch key vel oo =>
      if oo = 0x80 ∨ vel = 0 then
        (mapCloseScan event track timeUs ch key list.length list, Player_Callback_IgnoreEvent)
      else
        (list ++ [{ track := track, OnEvent := event, OffEvent := none,
                    startTime := timeUs, endTime := U32MAX }], Player_Callback_IgnoreEvent)
    | _ => (list, Player_Callback_IgnoreEvent)
  else (list, Player_Callback_IgnoreEvent)

/-- The player run performed by `Midi_MapAbsoluteTime`:
`MidiFile_Play(midi, UINT32_MAX, playerCb)` over the empty list. -/
def mapPlayRun (midi : MidiFile) (fuel : Nat) : PlayerState (List MidiAbsoluteTimeMap) :=
  MidiFile_Play midi U32MAX mapCb [] fuel

/-- `Midi_MapAbsoluteTime`: the number of entries and the list itself. -/
def Midi_MapAbsoluteTime (midi : MidiFile) (fuel : Nat) : Nat × List MidiAbsoluteTimeMap :=
  ((mapPlayRun midi fuel).cbState.length, (mapPlayRun midi fuel).cbState)

/-- The 7-bit big-endian value denoted by a byte string (each byte contributes
its low 7 bits). -/
def vlqVal (bs : List Nat) : Nat := bs.foldl (fun a b => a * 128 + b % 128) 0

/-- Specification-side definition (spec §4.1.1 / property P1), for the
minimality clause of the VLQ claim: `bs` is a well-formed SMF variable-length
encoding of `v` — nonempty, the high bit set on every byte but the last and
clear on the last, denoting `v`. -/
def IsVLQEncoding (bs : List Nat) (v : Nat) : Prop :=
  bs ≠ [] ∧ (∀ b ∈ bs.dropLast, 128 ≤ b ∧ b < 256) ∧ (∀ b ∈ bs.getLast?, b < 128) ∧
  vlqVal bs = v

/-- The well-formedness invariant that `MidiTrack_Read` guarantees for a fully
decoded payload: the interface type it was decoded under, and the field ranges
imposed by the byte reads (`% 256`, nibbles, NUL-free truncated text, etc.). -/
def dataWF (t : Nat) : EventData → Prop
  | .text l txt => isTextType t = true ∧ l ≤ 254 ∧ txt.length ≤ l ∧ ∀ b ∈ txt, 0 < b ∧ b < 256
  | .sequenceNumber n => t = 0x00 ∧ n < 65536
  | .channelPrefix c => t = 0x20 ∧ c < 256
  | .midiPort p => t = 0x21 ∧ p < 256
  | .setTempo tp => t = 0x51 ∧ tp < 16777216
  | .smpteOffset hr mn se fr ff => t = 0x54 ∧ hr < 256 ∧ mn < 256 ∧ se < 256 ∧ fr < 256 ∧ ff < 256
  | .timeSignature nn dd cc bb => t = 0x58 ∧ nn < 256 ∧ dd < 256 ∧ cc < 256 ∧ bb < 256
  | .keySignature sf mi => t = 0x59 ∧ sf < 256 ∧ mi < 256
  | .endOfTrack => t = 0x2F
  | .note ch k v oo => (t = 0x90 ∨ t = 0x80) ∧ ch < 16 ∧ k < 256 ∧ v < 256 ∧ oo = t
  | .polyphonicKeyPressure ch k p => t = 0xA0 ∧ ch < 16 ∧ k < 256 ∧ p < 256
  | .controlChange ch c v => t = 0xB0 ∧ ch < 16 ∧ c < 256 ∧ v < 256
  | .programChange ch p => t = 0xC0 ∧ ch < 16 ∧ p < 256
  | .channelPressure ch p => t = 0xD0 ∧ ch < 16 ∧ p < 256
  | .pitchWheelChange ch w => t = 0xE0 ∧ ch < 16 ∧ w < 32896
  | .uninit => False

/-- What the decoder guarantees about every event it stores: a bounded delta
time, and either a fully decoded payload, a payload left uninitialized by a
failed `read_data`, or an entirely uninitialized slot from a failed
`MidiEvent_Create`. -/
def eventDecoded (e : MidiEvent) : Prop :=
  e.deltaTime < U32 ∧ (dataWF e.type e.data ∨ e.data = .uninit ∨ e = garbageEvent)

/-- The events excluded from the (amended) structural round-trip: SMPTE
offsets (their writer is an unimplemented TODO that emits nothing), pitch
wheels whose decoded value is 32768 or more (the writer's `wheel / 128` is
truncated to a char), and events whose payload is uninitialized memory. -/
def eventRoundTrips (e : MidiEvent) : Prop :=
  match e.data with
  | .smpteOffset _ _ _ _ _ => False
  | .pitchWheelChange _ w => w < 32768
  | .uninit => False
  | _ => True

/-- The running status after an encoded event is decoded again: meta events
(first emitted byte `0xFF`) leave it alone, every other emitted event starts
with its status byte, which becomes the new running status. -/
def nextRS (e : MidiEvent) (rs : Nat) : Nat :=
  let b := (writeEventData e.type e.data).headD 0
  if b = 0xFF then rs else b

/-- Entry `j` of the time-map list is unterminated and matches
`(track, channel, key)` — exactly the test of the closing scan: `OffEvent`
still `NULL`, same track, and an on-event whose payload is a NoteOn with that
channel and key. -/
def openMatch (list : List MidiAbsoluteTimeMap) (j track ch key : Nat) : Prop :=
  (list.getD j default).OffEvent = none ∧ (list.getD j default).track = track ∧
  ∃ vel, (list.getD j default).OnEvent.data = .note ch key vel 0x90

/-- A logged callback invocation `(event, track, ticks, us)` that the time-map
callback treats as a note-off for `(track, ch, key)`: a NoteOn/NoteOff typed
event on that track whose payload carries that channel and key with either
the NoteOff status or velocity 0. -/
def matchingOff (q : MidiEvent × Nat × Nat × Nat) (track ch key : Nat) : Prop :=
  (q.1.type = 0x80 ∨ q.1.type = 0x90) ∧ q.2.1 = track ∧
  ∃ vel oo, q.1.data = .note ch key vel oo ∧ (oo = 0x80 ∨ vel = 0)

/-- A time-map entry with the identity of the closing event erased (only
whether it is closed is kept): used to state that a velocity-0 NoteOn closes
an entry exactly as a NoteOff would, up to which event object gets recorded
as the closer. -/
def mapEntryShape (m : MidiAbsoluteTimeMap) : Nat × MidiEvent × Nat × Nat × Bool :=
  (m.track, m.OnEvent, m.startTime, m.endTime, m.OffEvent.isSome)

/-- Replaying a callback-invocation log through a callback's state function:
the final callback state of a player run is this fold of its log. -/
def foldCb {σ : Type} (cb : PlayerCb σ) (s0 : σ) (log : List (MidiEvent × Nat × Nat × Nat)) : σ :=
  log.foldl (fun s p => (cb s p.1 p.2.1 p.2.2.1 p.2.2.2).1) s0

/-- Scenario S1 of the spec: format 0, one track, PPQ 96; the track holds
NoteOn ch0 key 60 vel 64 at delta 0, NoteOff at delta 96, EndOfTrack. -/
def sampleBytes : List Nat :=
  [0x4D, 0x54, 0x68, 0x64, 0, 0, 0, 6, 0, 0, 0, 1, 0, 0x60,
   0x4D, 0x54, 0x72, 0x6B, 0, 0, 0, 0x0B,
   0x00, 0x90, 0x3C, 0x40, 0x60, 0x80, 0x3C, 0x40, 0x00, 0xFF, 0x2F, 0x00]

/-- The file the decoder produces from `sampleBytes`. -/
def sampleFile : MidiFile :=
  ⟨0, 1, 96, [⟨[⟨0, 0x90, .note 0 60 64 0x90⟩, ⟨96, 0x80, .note 0 60 64 0x80⟩,
               ⟨0, 0x2F, .endOfTrack⟩]⟩]⟩

/-- A file like S1 whose track carries an SMPTE-offset meta event. -/
def smpteBytes : List Nat :=
  [0x4D, 0x54, 0x68, 0x64, 0, 0, 0, 6, 0, 0, 0, 1, 0, 0x60,
   0x4D, 0x54, 0x72, 0x6B, 0, 0, 0, 13,
   0x00, 0xFF, 0x54, 0x05, 1, 2, 3, 4, 5, 0x00, 0xFF, 0x2F, 0x00]

/-- The file the decoder produces from `smpteBytes`. -/
def smpteFile : MidiFile :=
  ⟨0, 1, 96, [⟨[⟨0, 0x54, .smpteOffset 1 2 3 4 5⟩, ⟨0, 0x2F, .endOfTrack⟩]⟩]⟩

/-- A track stream: NoteOn ch0 (setting running status 0x90), then a Text
meta event, then a bare data-byte pair `3C 40`. -/
def metaRunBytes : List Nat :=
  [0x00, 0x90, 0x3C, 0x40, 0x00, 0xFF, 0x01, 0x00, 0x00, 0x3C, 0x40]

/-- A track stream: NoteOn ch0 key 62 vel 66 (setting running status 0x90),
then an EndOfTrack meta event, then a bare data-byte pair `3E 42`. -/
def metaRunBytes2 : List Nat :=
  [0x00, 0x90, 0x3E, 0x42, 0x00, 0xFF, 0x2F, 0x00, 0x00, 0x3E, 0x42]

/-- A file whose first chunk after the header has the unknown tag `XXXX`
(length 0), followed by a well-formed track chunk. -/
def unknownChunkBytes : List Nat :=
  [0x4D, 0x54, 0x68, 0x64, 0, 0, 0, 6, 0, 0, 0, 1, 0, 0x60,
   0x58, 0x58, 0x58, 0x58, 0, 0, 0, 0,
   0x4D, 0x54, 0x72, 0x6B, 0, 0, 0, 4, 0x00, 0xFF, 0x2F, 0x00]

/-- A one-track file whose only event is a NoteOn with velocity 0. -/
def velZeroFile : MidiFile := ⟨0, 1, 480, [⟨[⟨0, 0x90, .note 0 60 0 0x90⟩]⟩]⟩

/-- PPQ 480, SetTempo 500000 at tick 0, then a NoteOn 480 ticks later: the
scenario of spec property P4. -/
def tempoFile : MidiFile :=
  ⟨0, 1, 480, [⟨[⟨0, 0x51, .setTempo 500000⟩, ⟨480, 0x90, .note 0 60 64 0x90⟩]⟩]⟩

/-- A one-track file with a single NoteOn (velocity 64) and no NoteOff: its
note is never terminated. -/
def openNoteFile : MidiFile := ⟨0, 1, 480, [⟨[⟨0, 0x90, .note 0 60 64 0x90⟩]⟩]⟩

/-! ### Variable-length quantities -/

theorem vlqCont_zero : vlqCont 0 = [] := by
  rw [vlqCont]
  simp

theorem vlqCont_apply (w : Nat) (h : w ≠ 0) :
    vlqCont w = vlqCont (w / 128) ++ [w % 128 + 128] := by
  rw [vlqCont]
  simp [h]

theorem vlqLen_small {v : Nat} (h : v < 128) : vlqLen v = 1 := by
  rw [vlqLen]
  simp [h]

theorem vlqLen_large {v : Nat} (h : ¬ v < 128) : vlqLen v = 1 + vlqLen (v / 128) := by
  rw [vlqLen]
  simp [h]

theorem vlqLen_eq_cont_length (v : Nat) : vlqLen v = (vlqCont (v / 128)).length + 1 := by
  induction v using Nat.strong_induction_on with
  | _ v ih =>
    by_cases h : v < 128
    · have hz : v / 128 = 0 := Nat.div_eq_of_lt h
      rw [vlqLen_small h, hz, vlqCont_zero]
      simp
    · have h1 : v / 128 ≠ 0 := by omega
      rw [vlqLen_large h, vlqCont_apply _ h1, List.length_append]
      have := ih (v / 128) (Nat.div_lt_self (by omega) (by omega))
      simp only [List.length_cons, List.length_nil]
      omega

theorem vlqCont_mem {w b : Nat} (hb : b ∈ vlqCont w) : 128 ≤ b ∧ b < 256 := by
  induction w using Nat.strong_induction_on with
  | _ w ih =>
    by_cases h : w = 0
    · rw [h, vlqCont_zero] at hb
      simp at hb
    · rw [vlqCont_apply _ h] at hb
      rcases List.mem_append.mp hb with h2 | h2
      · exact ih (w / 128) (Nat.div_lt_self (by omega) (by omega)) h2
      · have : b = w % 128 + 128 := by simpa using h2
        omega

/-- Processing the continuation bytes of a nonzero `w` multiplies the
accumulator past them and folds `w` in, provided no `uint32_t` overflow
occurs. -/
theorem vlq_decode_cont (w : Nat) (hw : w ≠ 0) :
    ∀ (value n : Nat) (rest : List Nat),
      value * 128 ^ (vlqCont w).length + 128 * w < U32 →
      ReadVariableLength.go (vlqCont w ++ rest) value n =
      ReadVariableLength.go rest (value * 128 ^ (vlqCont w).length + 128 * w)
        (n + (vlqCont w).length) := by
  induction w using Nat.strong_induction_on with
  | _ w ih =>
    intro value n rest hbound
    by_cases h : w < 128
    · -- a single continuation byte `w + 128`
      have hcont : vlqCont w = [w + 128] := by
        rw [vlqCont_apply _ hw, Nat.div_eq_of_lt h, vlqCont_zero, Nat.mod_eq_of_lt h]
        simp
      rw [hcont] at hbound ⊢
      simp only [List.length_cons, List.length_nil, Nat.zero_add, pow_one] at hbound ⊢
      simp only [List.cons_append, List.nil_append, ReadVariableLength.go]
      have hb1 : (w + 128) % 256 = w + 128 := by omega
      rw [hb1, if_neg (by omega : ¬ w + 128 < 128)]
      have hv : value + (w + 128 - 128) = value + w := by omega
      have hsmall : value + w < U32 := by omega
      have hmul : (value + w) * 128 = value * 128 + 128 * w := by ring
      rw [hv, Nat.mod_eq_of_lt hsmall, hmul, Nat.mod_eq_of_lt hbound]
      rfl
    · -- recurse on `w / 128`, then absorb the final continuation byte
      have h1 : w / 128 ≠ 0 := by omega
      rw [vlqCont_apply _ hw] at hbound ⊢
      rw [List.append_assoc]
      set k1 := (vlqCont (w / 128)).length with hk1
      have hlen : (vlqCont (w / 128) ++ [w % 128 + 128]).length = k1 + 1 := by
        simp [hk1]
      rw [hlen] at hbound ⊢
      have hsplit : 128 * (w / 128) + w % 128 = w := by omega
      set V1 := value * 128 ^ k1 + 128 * (w / 128) with hV1
      have hsum : (V1 + w % 128) * 128 = value * 128 ^ (k1 + 1) + 128 * w := by
        calc (V1 + w % 128) * 128
            = value * (128 ^ k1 * 128) + (128 * (w / 128) + w % 128) * 128 := by
              rw [hV1]; ring
          _ = value * 128 ^ (k1 + 1) + 128 * w := by
              rw [hsplit, pow_succ]; ring
      have hle : V1 + w % 128 ≤ (V1 + w % 128) * 128 :=
        Nat.le_mul_of_pos_right _ (by omega)
      have hVs : V1 + w % 128 < U32 := by omega
      have hIHbound : V1 < U32 := by omega
      rw [ih (w / 128) (Nat.div_lt_self (by omega) (by omega)) h1 value n _ hIHbound]
      simp only [List.cons_append, ReadVariableLength.go]
      have hb1 : (w % 128 + 128) % 256 = w % 128 + 128 := by omega
      rw [hb1, if_neg (by omega : ¬ w % 128 + 128 < 128)]
      have hfix : V1 + (w % 128 + 128 - 128) = V1 + w % 128 := by omega
      rw [hfix, Nat.mod_eq_of_lt hVs, hsum, Nat.mod_eq_of_lt hbound]
      rfl

/-- Decoding the encoder's output (with any trailing bytes) returns the value
and the number of bytes the encoder wrote, for any `uint32_t` value. -/
theorem vlq_roundtrip_general (v : Nat) (hv : v < U32) (rest : List Nat) :
    ReadVariableLength (vlqBytes v ++ rest) = some (vlqLen v, v) := by
  unfold ReadVariableLength vlqBytes
  by_cases h : v < 128
  · rw [Nat.div_eq_of_lt h, vlqCont_zero, vlqLen_small h]
    simp only [List.nil_append, List.cons_append, ReadVariableLength.go]
    have h1 : v % 128 % 256 = v := by omega
    rw [h1, if_pos h]
    simp [Nat.mod_eq_of_lt hv]
  · have h1 : v / 128 ≠ 0 := by omega
    rw [List.append_assoc]
    have hb : 0 * 128 ^ (vlqCont (v / 128)).length + 128 * (v / 128) < U32 := by
      have h2 : 128 * (v / 128) ≤ v := by omega
      simp only [Nat.zero_mul, Nat.zero_add]
      omega
    rw [vlq_decode_cont (v / 128) h1 0 0 _ hb]
    simp only [Nat.zero_mul, Nat.zero_add, List.cons_append, ReadVariableLength.go]
    have h2 : v % 128 % 256 = v % 128 := by omega
    rw [h2, if_pos (by omega : v % 128 < 128)]
    have h3 : 128 * (v / 128) + v % 128 = v := by omega
    rw [h3, Nat.mod_eq_of_lt hv, vlqLen_eq_cont_length v]

theorem vlqBytes_length (v : Nat) : (vlqBytes v).length = vlqLen v := by
  rw [vlqBytes, vlqLen_eq_cont_length]
  simp

theorem vlqVal_append_last (l : List Nat) (b : Nat) :
    vlqVal (l ++ [b]) = vlqVal l * 128 + b % 128 := by
  unfold vlqVal
  rw [List.foldl_append]
  simp

/-- Folding the 7-bit digits of `w`'s continuation bytes onto accumulator `a`. -/
theorem foldl_vlqCont (w : Nat) :
    ∀ a : Nat, List.foldl (fun a b => a * 128 + b % 128) a (vlqCont w)
      = a * 128 ^ (vlqCont w).length + w := by
  induction w using Nat.strong_induction_on with
  | _ w ih =>
    intro a
    by_cases h : w = 0
    · subst h
      rw [vlqCont_zero]
      simp
    · rw [vlqCont_apply _ h, List.foldl_append]
      rw [ih (w / 128) (Nat.div_lt_self (by omega) (by omega)) a]
      simp only [List.foldl_cons, List.foldl_nil, List.length_append, List.length_cons,
        List.length_nil]
      have hm : (w % 128 + 128) % 128 = w % 128 := by omega
      rw [hm]
      have : 128 * (w / 128) + w % 128 = w := by omega
      ring_nf
      ring_nf at this ⊢
      omega

theorem vlqVal_vlqBytes (v : Nat) : vlqVal (vlqBytes v) = v := by
  rw [vlqBytes, vlqVal_append_last]
  unfold vlqVal
  rw [foldl_vlqCont]
  simp only [Nat.zero_mul, Nat.zero_add]
  omega

theorem vlqLen_pow (v : Nat) : v < 128 ^ vlqLen v := by
  induction v using Nat.strong_induction_on with
  | _ v ih =>
    by_cases h : v < 128
    · rw [vlqLen_small h]
      simpa using h
    · rw [vlqLen_large h]
      have := ih (v / 128) (Nat.div_lt_self (by omega) (by omega))
      have h2 : v < 128 * 128 ^ vlqLen (v / 128) := by
        have h3 : v / 128 + 1 ≤ 128 ^ vlqLen (v / 128) := this
        have h4 : v < 128 * (v / 128 + 1) := by omega
        calc v < 128 * (v / 128 + 1) := h4
        _ ≤ 128 * 128 ^ vlqLen (v / 128) := Nat.mul_le_mul_left _ h3
      simpa [Nat.pow_add, Nat.pow_succ, Nat.mul_comm] using h2

theorem vlqLen_min_pow (v : Nat) (h : 2 ≤ vlqLen v) : 128 ^ (vlqLen v - 1) ≤ v := by
  induction v using Nat.strong_induction_on with
  | _ v ih =>
    by_cases hv : v < 128
    · rw [vlqLen_small hv] at h
      omega
    · rw [vlqLen_large hv] at h ⊢
      by_cases h2 : 2 ≤ vlqLen (v / 128)
      · have := ih (v / 128) (Nat.div_lt_self (by omega) (by omega)) h2
        have h3 : 128 ^ (vlqLen (v / 128) - 1) * 128 ≤ (v / 128) * 128 :=
          Nat.mul_le_mul_right _ this
        have h4 : (v / 128) * 128 ≤ v := by
          have := Nat.div_mul_le_self v 128
          omega
        have h5 : 1 + vlqLen (v / 128) - 1 = (vlqLen (v / 128) - 1) + 1 := by omega
        rw [h5, Nat.pow_succ]
        omega
      · have h6 : vlqLen (v / 128) = 1 := by
          have : 1 ≤ vlqLen (v / 128) := by
            by_cases h7 : v / 128 < 128
            · rw [vlqLen_small h7]
            · rw [vlqLen_large h7]; omega
          omega
        rw [h6]
        simpa using hv

/-- Any list of 7-bit digits denotes less than `128 ^ length`. -/
theorem vlqVal_lt (bs : List Nat) : vlqVal bs < 128 ^ bs.length := by
  suffices h : ∀ a, List.foldl (fun a b => a * 128 + b % 128) a bs < (a + 1) * 128 ^ bs.length by
    have := h 0
    simpa [vlqVal] using this
  induction bs with
  | nil => intro a; simp
  | cons b rest ih =>
    intro a
    simp only [List.foldl_cons, List.length_cons]
    have h1 := ih (a * 128 + b % 128)
    have h2 : (a * 128 + b % 128 + 1) ≤ (a + 1) * 128 := by
      have : b % 128 < 128 := Nat.mod_lt _ (by omega)
      nlinarith
    calc List.foldl (fun a b => a * 128 + b % 128) (a * 128 + b % 128) rest
        < (a * 128 + b % 128 + 1) * 128 ^ rest.length := h1
    _ ≤ (a + 1) * 128 * 128 ^ rest.length := Nat.mul_le_mul_right _ h2
    _ = (a + 1) * 128 ^ (rest.length + 1) := by ring

/-- A byte string of high-bit bytes denoting `w`, of the right length, is
exactly `vlqCont w`. -/
theorem vlqCont_unique (front : List Nat) :
    ∀ w, (∀ b ∈ front, 128 ≤ b ∧ b < 256) →
      List.foldl (fun a b => a * 128 + b % 128) 0 front = w →
      front.length = (vlqCont w).length → front = vlqCont w := by
  induction front using List.reverseRecOn with
  | nil =>
    intro w _ hval hlen
    have : w = 0 := by simpa [vlqVal] using hval.symm
    rw [this, vlqCont_zero]
  | append_singleton l c ih =>
    intro w hmem hval hlen
    have hc : 128 ≤ c ∧ c < 256 := hmem c (by simp)
    have hw : w ≠ 0 := by
      intro hz
      rw [hz, vlqCont_zero] at hlen
      simp at hlen
    rw [vlqCont_apply _ hw] at hlen ⊢
    have hval2 : (List.foldl (fun a b => a * 128 + b % 128) 0 l) * 128 + c % 128 = w := by
      rw [← hval, List.foldl_append]
      simp
    have hcm : c % 128 = c - 128 := by omega
    have hclt : c - 128 < 128 := by omega
    have hdigit : c - 128 = w % 128 ∧ List.foldl (fun a b => a * 128 + b % 128) 0 l = w / 128 := by
      constructor
      · omega
      · omega
    have hc_eq : c = w % 128 + 128 := by omega
    have hlen2 : l.length = (vlqCont (w / 128)).length := by
      simp at hlen
      omega
    have hl := ih (w / 128) (fun b hb => hmem b (by simp [hb])) hdigit.2 hlen2
    rw [hl, hc_eq]

/-- P1 as implemented: round-trip, well-formedness and minimal uniqueness of
the encoder output. -/
theorem vlqBytes_isEncoding (v : Nat) : IsVLQEncoding (vlqBytes v) v := by
  refine ⟨by simp [vlqBytes], ?_, ?_, vlqVal_vlqBytes v⟩
  · intro b hb
    rw [vlqBytes, List.dropLast_append_of_ne_nil _ (by simp)] at hb
    simp only [List.dropLast_single, List.append_nil] at hb
    exact vlqCont_mem hb
  · intro b hb
    rw [vlqBytes, List.getLast?_append_of_ne_nil _ (by simp)] at hb
    simp only [List.getLast?_singleton, Option.mem_def, Option.some.injEq] at hb
    subst hb
    exact Nat.mod_lt _ (by omega)

theorem vlq_minimal_unique (v : Nat) (bs : List Nat) (h : IsVLQEncoding bs v) :
    vlqLen v ≤ bs.length ∧ (bs.length = vlqLen v → bs = vlqBytes v) := by
  obtain ⟨hne, hmid, hlast, hval⟩ := h
  constructor
  · by_contra hc
    push_neg at hc
    have hb1 : 1 ≤ bs.length := by
      cases bs with
      | nil => exact absurd rfl hne
      | cons a l => simp
    have h2 : 2 ≤ vlqLen v := by omega
    have hmin := vlqLen_min_pow v h2
    have hlt : v < 128 ^ bs.length := hval ▸ vlqVal_lt bs
    have hle : (128 : Nat) ^ bs.length ≤ 128 ^ (vlqLen v - 1) :=
      Nat.pow_le_pow_right (by omega) (by omega)
    omega
  · intro hlen
    induction bs using List.reverseRecOn with
    | nil => exact absurd rfl hne
    | append_singleton l b _ =>
      have hb : b < 128 := by
        have := hlast b
        simp [List.getLast?_append_of_ne_nil] at this
        exact this
      have hval2 : vlqVal l * 128 + b % 128 = v := by
        rw [← hval, vlqVal_append_last]
      have hbm : b % 128 = b := Nat.mod_eq_of_lt hb
      have hsplit : b = v % 128 ∧ vlqVal l = v / 128 := by omega
      have hmeml : ∀ x ∈ l, 128 ≤ x ∧ x < 256 := by
        intro x hx
        apply hmid
        rw [List.dropLast_append_of_ne_nil _ (by simp)]
        simpa using hx
      have hlenl : l.length = (vlqCont (v / 128)).length := by
        have := vlqLen_eq_cont_length v
        simp at hlen
        omega
      have := vlqCont_unique l (v / 128) hmeml hsplit.2 hlenl
      rw [vlqBytes, this, hsplit.1]

/-- C4: for every `v ≤ 2^28 - 1`, decoding the bytes written by
`WriteVariableLength` returns exactly `v` (consuming exactly the bytes
written), the output is a well-formed VLQ encoding of `v`, it is minimal and
it is the unique encoding of its length; `v = 0` encodes as the single byte
`0x00`. -/
theorem claim_C4 (v : Nat) (hv : v ≤ 268435455) :
    ReadVariableLength (vlqBytes v) = some (vlqLen v, v) ∧
    IsVLQEncoding (vlqBytes v) v ∧
    (∀ bs, IsVLQEncoding bs v →
      vlqLen v ≤ bs.length ∧ (bs.length = vlqLen v → bs = vlqBytes v)) ∧
    (v = 0 → vlqBytes v = [0]) := by
  refine ⟨?_, vlqBytes_isEncoding v, fun bs h => vlq_minimal_unique v bs h, ?_⟩
  · have := vlq_roundtrip_general v (by unfold U32; omega) []
    simpa using this
  · intro hz
    subst hz
    simp [vlqBytes, vlqCont_zero]

/-- Witness for C4 at the largest 28-bit value and at 0. -/
theorem claim_C4_witness :
    ReadVariableLength (vlqBytes 268435455) = some (vlqLen 268435455, 268435455) ∧
    vlqBytes 0 = [0] :=
  ⟨(claim_C4 268435455 (by omega)).1, (claim_C4 0 (by omega)).2.2.2 rfl⟩

theorem readVLQ_go_allCont (bs : List Nat) :
    ∀ value n, (∀ b ∈ bs, 128 ≤ b % 256) → ReadVariableLength.go bs value n = none := by
  induction bs with
  | nil => intro value n _; rfl
  | cons b rest ih =>
    intro value n hall
    have hb := hall b (by simp)
    rw [ReadVariableLength.go]
    simp only [if_neg (by omega : ¬ b % 256 < 128)]
    exact ih _ _ (fun x hx => hall x (by simp [hx]))

theorem readVLQ_go_terminated (pre : List Nat) :
    ∀ (t : Nat) (rest : List Nat) (value n : Nat),
      (∀ b ∈ pre, 128 ≤ b % 256) → t % 256 < 128 →
      ∃ v, ReadVariableLength.go (pre ++ t :: rest) value n = some (n + pre.length + 1, v) := by
  induction pre with
  | nil =>
    intro t rest value n _ ht
    refine ⟨(value + t % 256) % U32, ?_⟩
    simp only [List.nil_append, List.length_nil]
    rw [ReadVariableLength.go]
    simp [ht]
  | cons b pre2 ih =>
    intro t rest value n hall ht
    have hb := hall b (by simp)
    simp only [List.cons_append]
    rw [ReadVariableLength.go]
    simp only [if_neg (by omega : ¬ b % 256 < 128)]
    obtain ⟨v, hv⟩ := ih t rest ((value + (b % 256 - 128)) % U32 * 128 % U32) (n + 1)
      (fun x hx => hall x (by simp [hx])) ht
    refine ⟨v, ?_⟩
    rw [hv]
    congr 2
    simp
    omega

/-- Counterexample to C5 as stated: the decoder accepts the 5-byte quantity
`81 80 80 80 00`, returning the 29-bit value `2^28` instead of an error — no
28-bit / 4-byte limit is enforced. -/
theorem claim_C5_counterexample :
    ReadVariableLength [0x81, 0x80, 0x80, 0x80, 0x00] = some (5, 268435456) := by
  rfl

/-- C5 amended: the decoder errors exactly when the buffer ends before a byte
with a clear high bit (in particular on an empty buffer); it enforces no
28-bit limit; every well-formed quantity of at most 4 bytes decodes
successfully, returning the number of bytes consumed. -/
theorem claim_C5_amended :
    (∀ bs : List Nat, (∀ b ∈ bs, 128 ≤ b % 256) → ReadVariableLength bs = none) ∧
    (∀ (pre : List Nat) (t : Nat) (rest : List Nat), pre.length ≤ 3 →
      (∀ b ∈ pre, 128 ≤ b % 256) → t % 256 < 128 →
      ∃ v, ReadVariableLength (pre ++ t :: rest) = some (pre.length + 1, v)) := by
  constructor
  · intro bs h
    exact readVLQ_go_allCont bs 0 0 h
  · intro pre t rest _ hall ht
    have := readVLQ_go_terminated pre t rest 0 0 hall ht
    simpa [ReadVariableLength] using this

/-- Witness for C5 amended: a truncated quantity fails, a 2-byte quantity
succeeds consuming 2 bytes. -/
theorem claim_C5_witness :
    ReadVariableLength [0x80, 0x81] = none ∧
    ∃ v, ReadVariableLength ([0x81] ++ 0x05 :: []) = some (1 + 1, v) :=
  ⟨claim_C5_amended.1 [0x80, 0x81] (by decide),
   claim_C5_amended.2 [0x81] 0x05 [] (by decide) (by decide) (by decide)⟩

/-! ### Text events -/

/-- Counterexample to C9 as stated: a length octet of 255 is rejected by
`read_data_Text` (`len > MidiEventData_Text_Max_Length - 1` with the max set
to 255 leaves room only for 254 payload bytes plus the NUL terminator). -/
theorem claim_C9_counterexample :
    read_data_Text (255 :: List.replicate 255 65) = none := by
  rfl

/-- C9 amended: `read_data_Text` accepts every payload whose length octet is
at most 254 — storing that length, the payload bytes up to the first NUL (the
`%.*s` copy), and consuming `1 + len` bytes — and rejects a length octet of
255. -/
theorem claim_C9_amended (len : Nat) (payload : List Nat) (h : len ≤ 254) :
    read_data_Text (len :: payload) =
      some (.text len (cstrTrunc (payload.take len)), 1 + len) := by
  unfold read_data_Text
  have h1 : len % 256 = len := by omega
  simp only [List.getD_cons_zero, h1, List.drop_succ_cons, List.drop_zero]
  rw [if_neg (by omega)]

/-- Witness for C9 amended at length 3. -/
theorem claim_C9_witness :
    read_data_Text (3 :: [65, 66, 67, 68]) = some (.text 3 [65, 66, 67], 1 + 3) := by
  have := claim_C9_amended 3 [65, 66, 67, 68] (by omega)
  simpa [cstrTrunc] using this

/-! ### Running status across meta events -/

/-- Counterexample to C6 as stated: in the stream `metaRunBytes` a NoteOn sets
the running status, a Text meta event follows, and the trailing data bytes
`3C 40` (first byte < 0x80) are then decoded by **reusing** the pre-meta
status 0x90: the decoder yields a third event that is again a NoteOn ch0
key 60 vel 64 — the meta event did not clear the running status. -/
theorem claim_C6_counterexample :
    MidiTrack_Read 10 metaRunBytes 11 =
      some [⟨0, 0x90, .note 0 60 64 0x90⟩, ⟨0, 0x01, .text 0 []⟩,
            ⟨0, 0x90, .note 0 60 64 0x90⟩] := by
  rfl

/-- C6 amended: decoding a meta event leaves the running status exactly as it
was (the status-handling step returns it unchanged), so a subsequent event
whose first byte is < 0x80 **is** decoded by reusing the channel status byte
from before the meta event; concretely, after NoteOn / EndOfTrack-meta, the
bare pair `3E 42` decodes as a second NoteOn. -/
theorem claim_C6_amended :
    (∀ metaByte rs, (statusStep 0xFF metaByte rs).2.2.2 = rs) ∧
    (∀ sb metaByte rs, sb < 0x80 →
      statusStep sb metaByte rs = (0, hiNibble rs, rs, rs)) ∧
    MidiTrack_Read 10 metaRunBytes2 11 =
      some [⟨0, 0x90, .note 0 62 66 0x90⟩, ⟨0, 0x2F, .endOfTrack⟩,
            ⟨0, 0x90, .note 0 62 66 0x90⟩] := by
  refine ⟨?_, ?_, by rfl⟩
  · intro metaByte rs
    simp [statusStep]
  · intro sb metaByte rs h
    unfold statusStep
    rw [if_neg (by omega), if_pos h]

/-- Witness for C6 amended: a data byte below 0x80 reuses the running status. -/
theorem claim_C6_witness :
    statusStep 0x3C 0x00 0x90 = (0, hiNibble 0x90, 0x90, 0x90) :=
  claim_C6_amended.2.1 0x3C 0x00 0x90 (by omega)

/-! ### Unknown chunks -/

/-- Counterexample to C7 as stated: a file with a valid header followed by a
chunk tagged `XXXX` (and then a valid track chunk) makes `MidiFile_Open` fail
outright (`goto error`, returning `NULL`) — the unknown chunk is neither
skipped nor is parsing continued. -/
theorem claim_C7_counterexample : MidiFile_Open 10 10 unknownChunkBytes = none := by
  rfl

/-- C7 amended: whenever the chunk loop meets a chunk whose 4-byte tag is
neither `MThd` nor `MTrk` (with the length field readable), it aborts the
whole load with an error, whatever state it had reached. -/
theorem claim_C7_amended (trackFuel fuel : Nat) (bytes : List Nat) (st : OpenState)
    (h4 : 4 ≤ bytes.length) (h8 : 4 ≤ (bytes.drop 4).length)
    (hMThd : bytes.take 4 ≠ [0x4D, 0x54, 0x68, 0x64])
    (hMTrk : bytes.take 4 ≠ [0x4D, 0x54, 0x72, 0x6B]) :
    MidiFile_Open.go trackFuel (fuel + 1) bytes st = none := by
  rw [MidiFile_Open.go]
  rw [if_neg (by omega), if_neg (by omega), if_neg hMThd, if_neg hMTrk]

/-- Witness for C7 amended on a concrete `XXXX` chunk. -/
theorem claim_C7_witness :
    MidiFile_Open.go 10 (9 + 1) [0x58, 0x58, 0x58, 0x58, 0, 0, 0, 0] {} = none :=
  claim_C7_amended 10 9 _ _ (by decide) (by decide) (by decide) (by decide)

/-! ### Player -/

/-- When the callback answers `IgnoreEvent`, firing an event adds nothing to
the sink trace: notes and program changes are skipped, and a SetTempo (always
applied) only updates the internal tick duration. -/
theorem fireEvent_trace_of_ignore {σ : Type} (midi : MidiFile) (startUsec : Nat)
    (cb : PlayerCb σ) (t : Nat) (st : PlayerState σ)
    (hres : (cb st.cbState (eventAt midi t (st.currentEvent.getD t 0)) t st.ticks st.usecs).2
      = Player_Callback_IgnoreEvent) :
    (fireEvent midi startUsec cb t st).1.trace = st.trace := by
  unfold fireEvent
  generalize hE : eventAt midi t (st.currentEvent.getD t 0) = ev
  rw [hE] at hres
  simp only [hres]
  split_ifs with h1 h2 h3 h4 h5 h6 h7 <;> try rfl
  all_goals exfalso
  all_goals
    have ht : ev.type = 81 := by
      by_contra hc
      exact h2 ⟨by trivial, hc⟩
  all_goals
    first
      | (rcases h3.1 with hh | hh <;> omega)
      | omega

/-- Walking the track list with an always-ignore callback leaves the sink
trace untouched. -/
theorem tracksPass_trace_of_ignore {σ : Type} (midi : MidiFile) (startUsec : Nat)
    (cb : PlayerCb σ) (d : Nat)
    (hcb : ∀ s e tr tk us, (cb s e tr tk us).2 = Player_Callback_IgnoreEvent) :
    ∀ (l : List Nat) (st : PlayerState σ),
      (tracksPass midi startUsec cb d l st).1.trace = st.trace := by
  intro l
  induction l with
  | nil => intro st; rfl
  | cons t rest ih =>
    intro st
    rw [tracksPass]
    by_cases hw : sub32 (st.waitTicks.getD t 0) d ≠ 0
    · rw [if_pos hw, ih]
    · rw [if_neg hw]
      rcases hfire : fireEvent midi startUsec cb t
          { st with waitTicks := st.waitTicks.set t (sub32 (st.waitTicks.getD t 0) d) }
        with ⟨st2, b⟩
      have htr : st2.trace = st.trace := by
        have := fireEvent_trace_of_ignore midi startUsec cb t
          { st with waitTicks := st.waitTicks.set t (sub32 (st.waitTicks.getD t 0) d) }
          (hcb _ _ _ _ _)
        rw [hfire] at this
        exact this
      cases b
      · simp only [hfire, ih, htr]
      · simp only [hfire, htr]

/-- With an always-ignore callback, the scheduler's only sink calls are
sleeps: the device-call part of the trace never grows. -/
theorem playLoop_trace_of_ignore {σ : Type} (midi : MidiFile) (startUsec : Nat)
    (cb : PlayerCb σ)
    (hcb : ∀ s e tr tk us, (cb s e tr tk us).2 = Player_Callback_IgnoreEvent) :
    ∀ (fuel : Nat) (st : PlayerState σ),
      (playLoop midi startUsec cb fuel st).trace.filter SinkCall.isDeviceCall
        = st.trace.filter SinkCall.isDeviceCall := by
  intro fuel
  induction fuel with
  | zero => intro st; rfl
  | succ fuel ih =>
    intro st
    rw [playLoop]
    by_cases hc : st.countFinished < midi.nTrks
    · rw [if_pos hc]
      set st1 : PlayerState σ :=
        { st with ticks := (st.ticks + st.minimumWaitTicks) % U32,
                  usecs := (st.usecs + st.tickDurationUs * st.minimumWaitTicks) % U32 } with hst1
      set st2 : PlayerState σ :=
        if startUsec ≤ st1.usecs then
          { st1 with trace := st1.trace ++ [.sleep (st1.tickDurationUs * st.minimumWaitTicks % U32)] }
        else st1 with hst2
      have htr2 : st2.trace.filter SinkCall.isDeviceCall
          = st.trace.filter SinkCall.isDeviceCall := by
        rw [hst2]
        by_cases hs : startUsec ≤ st1.usecs
        · rw [if_pos hs]
          simp [SinkCall.isDeviceCall]
        · rw [if_neg hs]
      rcases hpass : tracksPass midi startUsec cb st.minimumWaitTicks (List.range midi.nTrks)
          { st2 with minimumWaitTicks := U32MAX } with ⟨st4, b⟩
      have htr4 : st4.trace = st2.trace := by
        have := tracksPass_trace_of_ignore midi startUsec cb st.minimumWaitTicks hcb
          (List.range midi.nTrks) { st2 with minimumWaitTicks := U32MAX }
        rw [hpass] at this
        exact this
      cases b
      · simp only [hpass, ih, htr4, htr2]
      · simp only [hpass, htr4, htr2]
    · rw [if_neg hc]

/-- C10: the time map's internal callback answers `IgnoreEvent` for every
event, and consequently the player run underlying `Midi_MapAbsoluteTime`
performs no `MidiDevice_PlayNote` and no `MidiDevice_SetChannelInstrument`
call on any input file (the filtered device-call trace is empty). -/
theorem claim_C10 :
    (∀ s e t tk us, (mapCb s e t tk us).2 = Player_Callback_IgnoreEvent) ∧
    (∀ (midi : MidiFile) (fuel : Nat),
      (mapPlayRun midi fuel).trace.filter SinkCall.isDeviceCall = []) := by
  have hign : ∀ s e t tk us, (mapCb s e t tk us).2 = Player_Callback_IgnoreEvent := by
    intro s e t tk us
    unfold mapCb
    split
    · cases hd : e.data <;> simp only [] <;> first | rfl | (split <;> rfl)
    · rfl
  refine ⟨hign, ?_⟩
  intro midi fuel
  unfold mapPlayRun MidiFile_Play
  rw [playLoop_trace_of_ignore midi U32MAX mapCb hign]
  rfl

/-- Firing a NoteOn whose callback answers `PlayEvent` once the clock passed
`start_usec` appends exactly one `MidiDevice_PlayNote` call, with
`state = (type == NoteOn)`. -/
theorem fireEvent_playNote {σ : Type} (midi : MidiFile) (startUsec : Nat)
    (cb : PlayerCb σ) (t : Nat) (st : PlayerState σ) (d ch key vel : Nat)
    (hev : eventAt midi t (st.currentEvent.getD t 0) = ⟨d, 0x90, .note ch key vel 0x90⟩)
    (hres : (cb st.cbState (eventAt midi t (st.currentEvent.getD t 0)) t st.ticks st.usecs).2
      = Player_Callback_PlayEvent)
    (hus : startUsec ≤ st.usecs) :
    (fireEvent midi startUsec cb t st).1.trace
      = st.trace ++ [.playNote key ch vel true] := by
  unfold fireEvent
  rw [hev] at hres ⊢
  simp only [hres]
  split_ifs with h1 h2 h3 h4 h5 h6 h7 <;>
    first
      | rfl
      | exact absurd h1 (by decide)
      | exact absurd h2 (by decide)
      | exact absurd h2.1 (by decide)
      | omega
      | exact absurd ⟨Or.inl (by trivial), hus⟩ h3
      | exact absurd ⟨Or.inl (by trivial), hus⟩ h4

/-- Counterexample to the Player half of C1 as stated: playing a file whose
only event is a velocity-0 NoteOn dispatches it to the synth sink with the
note-**on** state flag (`state = (type == NoteOn)` is true, velocity 0); no
note-off-state call appears in the trace. -/
theorem claim_C1_counterexample :
    (MidiFile_Play velZeroFile 0 trivial_callback () 5).trace
      = [.sleep 0, .playNote 60 0 0 true] ∧
    SinkCall.playNote 60 0 0 false ∉ (MidiFile_Play velZeroFile 0 trivial_callback () 5).trace := by
  constructor
  · rfl
  · decide

/-- C1 amended: in the Time Map a velocity-0 NoteOn closes a prior unclosed
matching (track, channel, key) entry exactly as a NoteOff event would — the
resulting lists agree entry-by-entry once the identity of the recorded
closing event is erased — while in the Player, when the callback returns
`PlayEvent` and `clock_us ≥ start_us`, a NoteOn is dispatched to the synth
sink with the note-on state flag regardless of its velocity (a velocity-0
NoteOn becomes `PlayNote(key, ch, 0, on)`), not with the note-off state. -/
theorem claim_C1_amended :
    (∀ (list : List MidiAbsoluteTimeMap) (track tk us ch key vel d1 d2 : Nat),
      ((mapCb list ⟨d1, 0x90, .note ch key 0 0x90⟩ track tk us).1).map mapEntryShape =
      ((mapCb list ⟨d2, 0x80, .note ch key vel 0x80⟩ track tk us).1).map mapEntryShape) ∧
    (∀ (σ : Type) (midi : MidiFile) (startUsec : Nat) (cb : PlayerCb σ) (t : Nat)
      (st : PlayerState σ) (d ch key : Nat),
      eventAt midi t (st.currentEvent.getD t 0) = ⟨d, 0x90, .note ch key 0 0x90⟩ →
      (cb st.cbState (eventAt midi t (st.currentEvent.getD t 0)) t st.ticks st.usecs).2
        = Player_Callback_PlayEvent →
      startUsec ≤ st.usecs →
      (fireEvent midi startUsec cb t st).1.trace
        = st.trace ++ [.playNote key ch 0 true]) := by
  constructor
  · intro list track tk us ch key vel d1 d2
    have hscan : ∀ (n : Nat) (l : List MidiAbsoluteTimeMap) (e1 e2 : MidiEvent),
        (mapCloseScan e1 track us ch key n l).map mapEntryShape =
        (mapCloseScan e2 track us ch key n l).map mapEntryShape := by
      intro n
      induction n with
      | zero => intro l e1 e2; rfl
      | succ i ih =>
        intro l e1 e2
        rw [mapCloseScan, mapCloseScan]
        by_cases hoff : (l.getD i default).OffEvent ≠ none
        · rw [if_pos hoff, if_pos hoff, ih]
        · rw [if_neg hoff, if_neg hoff]
          cases hd : (l.getD i default).OnEvent.data with
          | note ch2 key2 vel2 oo2 =>
            dsimp only
            by_cases hm : ch2 = ch ∧ (l.getD i default).track = track ∧ key2 = key ∧ oo2 = 0x90
            · rw [if_pos hm, if_pos hm]
              simp [mapEntryShape]
            · rw [if_neg hm, if_neg hm, ih]
          | text a b => exact ih l e1 e2
          | sequenceNumber a => exact ih l e1 e2
          | channelPrefix a => exact ih l e1 e2
          | midiPort a => exact ih l e1 e2
          | setTempo a => exact ih l e1 e2
          | smpteOffset a b c dd e => exact ih l e1 e2
          | timeSignature a b c dd => exact ih l e1 e2
          | keySignature a b => exact ih l e1 e2
          | endOfTrack => exact ih l e1 e2
          | polyphonicKeyPressure a b c => exact ih l e1 e2
          | controlChange a b c => exact ih l e1 e2
          | programChange a b => exact ih l e1 e2
          | channelPressure a b => exact ih l e1 e2
          | pitchWheelChange a b => exact ih l e1 e2
          | uninit => exact ih l e1 e2
    unfold mapCb
    simp only [show (0x90 : Nat) = 0x80 ∨ (0x90 : Nat) = 0x90 from Or.inr rfl]
    norm_num
    exact hscan list.length list _ _
  · intro σ midi startUsec cb t st d ch key hev hres hus
    exact fireEvent_playNote midi startUsec cb t st d ch key 0 hev hres hus

/-- Witness for C1 amended: the closing-equivalence at a one-entry list, and
the dispatch on the concrete velocity-0 file. -/
theorem claim_C1_witness :
    ((mapCb [⟨0, ⟨0, 0x90, .note 0 60 64 0x90⟩, none, 5, U32MAX⟩]
        ⟨0, 0x90, .note 0 60 0 0x90⟩ 0 7 9).1).map mapEntryShape =
    ((mapCb [⟨0, ⟨0, 0x90, .note 0 60 64 0x90⟩, none, 5, U32MAX⟩]
        ⟨0, 0x80, .note 0 60 64 0x80⟩ 0 7 9).1).map mapEntryShape ∧
    (fireEvent velZeroFile 0 trivial_callback 0
        ⟨[0], [0], 2602, 0, 0, 0, 0, [], [], ()⟩).1.trace
      = [] ++ [.playNote 60 0 0 true] :=
  ⟨claim_C1_amended.1 [⟨0, ⟨0, 0x90, .note 0 60 64 0x90⟩, none, 5, U32MAX⟩] 0 7 9 0 60 64 0 0,
   claim_C1_amended.2 Unit velZeroFile 0 trivial_callback 0
     ⟨[0], [0], 2602, 0, 0, 0, 0, [], [], ()⟩ 0 0 60 (by rfl) (by rfl) (by omega)⟩

/-- Counterexample to C2 as stated: on a PPQ-480 file with a single
SetTempo 500000 at tick 0, the clock after advancing 480 ticks reads
499680 µs, not exactly 500000 µs. -/
theorem claim_C2_counterexample :
    ((MidiFile_Play tempoFile U32MAX trivial_callback () 5).log.map
      fun p => (p.2.2.1, p.2.2.2)) = [(0, 0), (480, 499680)] ∧
    (499680 : Nat) ≠ 500000 := by
  constructor
  · rfl
  · omega

/-- C2 amended: the per-tick duration is the integer quotient
`tempo / ppq = 500000 / 480 = 1041` µs, and after advancing 480 ticks the
clock reads `480 * (500000 / 480) = 499680` µs (truncation loses 320 µs). -/
theorem claim_C2_amended :
    (MidiFile_Play tempoFile U32MAX trivial_callback () 5).tickDurationUs = 500000 / 480 ∧
    ((MidiFile_Play tempoFile U32MAX trivial_callback () 5).log.map
      fun p => (p.2.2.1, p.2.2.2)) = [(0, 0), (480, 480 * (500000 / 480))] := by
  constructor <;> rfl

/-! ### Time map -/

theorem foldCb_append {σ : Type} (cb : PlayerCb σ) (s0 : σ)
    (l1 l2 : List (MidiEvent × Nat × Nat × Nat)) :
    foldCb cb s0 (l1 ++ l2) = foldCb cb (foldCb cb s0 l1) l2 := by
  unfold foldCb
  rw [List.foldl_append]

/-- Every branch of `fireEvent` appends the fired event to the callback log
and stores the callback's new state. -/
theorem fireEvent_log_cbState {σ : Type} (midi : MidiFile) (startUsec : Nat)
    (cb : PlayerCb σ) (t : Nat) (st : PlayerState σ) :
    (fireEvent midi startUsec cb t st).1.log
      = st.log ++ [(eventAt midi t (st.currentEvent.getD t 0), t, st.ticks, st.usecs)] ∧
    (fireEvent midi startUsec cb t st).1.cbState
      = (cb st.cbState (eventAt midi t (st.currentEvent.getD t 0)) t st.ticks st.usecs).1 := by
  unfold fireEvent
  dsimp only
  split_ifs <;> exact ⟨rfl, rfl⟩

/-- The callback state of the player is the fold of the callback over the
invocation log: track-pass step. -/
theorem tracksPass_foldCb {σ : Type} (midi : MidiFile) (startUsec : Nat)
    (cb : PlayerCb σ) (d : Nat) (s0 : σ) :
    ∀ (l : List Nat) (st : PlayerState σ),
      st.cbState = foldCb cb s0 st.log →
      (tracksPass midi startUsec cb d l st).1.cbState
        = foldCb cb s0 (tracksPass midi startUsec cb d l st).1.log := by
  intro l
  induction l with
  | nil => intro st h; exact h
  | cons t rest ih =>
    intro st h
    rw [tracksPass]
    by_cases hw : sub32 (st.waitTicks.getD t 0) d ≠ 0
    · rw [if_pos hw]
      exact ih _ h
    · rw [if_neg hw]
      rcases hfire : fireEvent midi startUsec cb t
          { st with waitTicks := st.waitTicks.set t (sub32 (st.waitTicks.getD t 0) d) }
        with ⟨st2, b⟩
      have hlc := fireEvent_log_cbState midi startUsec cb t
        { st with waitTicks := st.waitTicks.set t (sub32 (st.waitTicks.getD t 0) d) }
      rw [hfire] at hlc
      have h2 : st2.cbState = foldCb cb s0 st2.log := by
        rw [hlc.2, hlc.1, foldCb_append]
        dsimp only
        rw [← h]
        rfl
      cases b
      · simp only [hfire]
        exact ih _ h2
      · simp only [hfire]
        exact h2

/-- The callback state of the player is the fold of the callback over the
invocation log: scheduler loop. -/
theorem playLoop_foldCb {σ : Type} (midi : MidiFile) (startUsec : Nat)
    (cb : PlayerCb σ) (s0 : σ) :
    ∀ (fuel : Nat) (st : PlayerState σ),
      st.cbState = foldCb cb s0 st.log →
      (playLoop midi startUsec cb fuel st).cbState
        = foldCb cb s0 (playLoop midi startUsec cb fuel st).log := by
  intro fuel
  induction fuel with
  | zero => intro st h; exact h
  | succ fuel ih =>
    intro st h
    rw [playLoop]
    by_cases hc : st.countFinished < midi.nTrks
    · rw [if_pos hc]
      set st1 : PlayerState σ :=
        { st with ticks := (st.ticks + st.minimumWaitTicks) % U32,
                  usecs := (st.usecs + st.tickDurationUs * st.minimumWaitTicks) % U32 } with hst1
      set st2 : PlayerState σ :=
        if startUsec ≤ st1.usecs then
          { st1 with trace := st1.trace ++ [.sleep (st1.tickDurationUs * st.minimumWaitTicks % U32)] }
        else st1 with hst2
      have h3 : ({ st2 with minimumWaitTicks := U32MAX } : PlayerState σ).cbState
          = foldCb cb s0 ({ st2 with minimumWaitTicks := U32MAX } : PlayerState σ).log := by
        rw [hst2]
        by_cases hs : startUsec ≤ st1.usecs
        · rw [if_pos hs]
          exact h
        · rw [if_neg hs]
          exact h
      rcases hpass : tracksPass midi startUsec cb st.minimumWaitTicks (List.range midi.nTrks)
          { st2 with minimumWaitTicks := U32MAX } with ⟨st4, b⟩
      have h4 := tracksPass_foldCb midi startUsec cb st.minimumWaitTicks s0
        (List.range midi.nTrks) { st2 with minimumWaitTicks := U32MAX } h3
      rw [hpass] at h4
      cases b
      · simp only [hpass]
        exact ih _ h4
      · simp only [hpass]
        exact h4
    · rw [if_neg hc]
      exact h

/-- The final callback state of a player run replays the invocation log. -/
theorem play_cbState_foldCb {σ : Type} (midi : MidiFile) (startUsec : Nat)
    (cb : PlayerCb σ) (s0 : σ) (fuel : Nat) :
    (MidiFile_Play midi startUsec cb s0 fuel).cbState
      = foldCb cb s0 (MidiFile_Play midi startUsec cb s0 fuel).log := by
  unfold MidiFile_Play
  exact playLoop_foldCb midi startUsec cb s0 fuel _ rfl

/-- A scan step over an entry that is not an open match skips it. -/
theorem mapCloseScan_skip (e : MidiEvent) (track us ch key n : Nat)
    (list : List MidiAbsoluteTimeMap) (hno : ¬ openMatch list n track ch key) :
    mapCloseScan e track us ch key (n + 1) list = mapCloseScan e track us ch key n list := by
  rw [mapCloseScan]
  by_cases hoff : (list.getD n default).OffEvent ≠ none
  · rw [if_pos hoff]
  · rw [if_neg hoff]
    cases hd : (list.getD n default).OnEvent.data with
    | note ch2 key2 vel2 oo2 =>
      dsimp only
      rw [if_neg]
      intro hm
      exact hno ⟨not_not.mp hoff, hm.2.1, vel2, by rw [hd, hm.1, hm.2.2.1, hm.2.2.2]⟩
    | text a b => rfl
    | sequenceNumber a => rfl
    | channelPrefix a => rfl
    | midiPort a => rfl
    | setTempo a => rfl
    | smpteOffset a b c d2 e2 => rfl
    | timeSignature a b c d2 => rfl
    | keySignature a b => rfl
    | endOfTrack => rfl
    | polyphonicKeyPressure a b c => rfl
    | controlChange a b c => rfl
    | programChange a b => rfl
    | channelPressure a b => rfl
    | pitchWheelChange a b => rfl
    | uninit => rfl

/-- If no entry below `n` is an open match, the scan changes nothing. -/
theorem mapCloseScan_no_match (e : MidiEvent) (track us ch key : Nat) :
    ∀ (n : Nat) (list : List MidiAbsoluteTimeMap),
      (∀ j, j < n → ¬ openMatch list j track ch key) →
      mapCloseScan e track us ch key n list = list := by
  intro n
  induction n with
  | zero => intro list _; rfl
  | succ n ih =>
    intro list hno
    rw [mapCloseScan_skip e track us ch key n list (hno n (by omega))]
    exact ih list (fun j hj => hno j (by omega))

/-- If `j` is the greatest open match below `n`, the scan closes exactly
entry `j`, recording the closing event and the current time. -/
theorem mapCloseScan_match (e : MidiEvent) (track us ch key : Nat) :
    ∀ (n : Nat) (list : List MidiAbsoluteTimeMap) (j : Nat),
      j < n → openMatch list j track ch key →
      (∀ j2, j < j2 → j2 < n → ¬ openMatch list j2 track ch key) →
      mapCloseScan e track us ch key n list =
        list.set j { list.getD j default with OffEvent := some e, endTime := us } := by
  intro n
  induction n with
  | zero => intro list j hj; omega
  | succ n ih =>
    intro list j hj hm hgr
    by_cases hjn : j = n
    · subst hjn
      obtain ⟨hoff, htr, vel, hdata⟩ := hm
      rw [mapCloseScan]
      rw [if_neg (by rw [hoff]; simp)]
      rw [show (list.getD j default).OnEvent.data = EventData.note ch key vel 0x90 from hdata]
      dsimp only
      rw [if_pos ⟨rfl, htr, rfl, rfl⟩]
    · have hj2 : j < n := by omega
      rw [mapCloseScan_skip e track us ch key n list (hgr n (by omega) (by omega))]
      exact ih list j hj2 hm (fun j2 h1 h2 => hgr j2 h1 (by omega))

/-- Total characterization of the scan: it either changes nothing or closes
one open matching entry. -/
theorem mapCloseScan_cases (e : MidiEvent) (track us ch key : Nat) :
    ∀ (n : Nat) (list : List MidiAbsoluteTimeMap),
      mapCloseScan e track us ch key n list = list ∨
      ∃ j, j < n ∧ openMatch list j track ch key ∧
        mapCloseScan e track us ch key n list =
          list.set j { list.getD j default with OffEvent := some e, endTime := us } := by
  intro n
  induction n with
  | zero => intro list; exact Or.inl rfl
  | succ n ih =>
    intro list
    by_cases hm : openMatch list n track ch key
    · right
      obtain ⟨hoff, htr, vel, hdata⟩ := hm
      refine ⟨n, by omega, ⟨hoff, htr, vel, hdata⟩, ?_⟩
      rw [mapCloseScan]
      rw [if_neg (by rw [hoff]; simp)]
      rw [show (list.getD n default).OnEvent.data = EventData.note ch key vel 0x90 from hdata]
      dsimp only
      rw [if_pos ⟨rfl, htr, rfl, rfl⟩]
    · rw [mapCloseScan_skip e track us ch key n list hm]
      rcases ih list with h | ⟨j, hj, hm2, heq⟩
      · exact Or.inl h
      · exact Or.inr ⟨j, by omega, hm2, heq⟩

/-- One time-map callback step cannot disturb a fixed open entry for
`(t, ch, key)` unless the event is a matching note-off for it. -/
theorem mapCb_preserves_entry (t ch key : Nat) (m0 : MidiAbsoluteTimeMap)
    (hm0off : m0.OffEvent = none) (hm0tr : m0.track = t)
    (vel0 : Nat) (hm0data : m0.OnEvent.data = .note ch key vel0 0x90) :
    ∀ (list : List MidiAbsoluteTimeMap) (e : MidiEvent) (tr tk us p : Nat),
      p < list.length → list.getD p default = m0 →
      ¬ matchingOff (e, tr, tk, us) t ch key →
      p < (mapCb list e tr tk us).1.length ∧ (mapCb list e tr tk us).1.getD p default = m0 := by
  intro list e tr tk us p hp hpm0 hnomatch
  unfold mapCb
  by_cases hty : e.type = 0x80 ∨ e.type = 0x90
  · rw [if_pos hty]
    cases hd : e.data with
    | note ch2 key2 vel2 oo2 =>
      dsimp only
      by_cases hoo : oo2 = 0x80 ∨ vel2 = 0
      · rw [if_pos hoo]
        dsimp only
        rcases mapCloseScan_cases e tr us ch2 key2 list.length list with hcase | ⟨j, hjn, hjm, heq⟩
        · rw [hcase]
          exact ⟨hp, hpm0⟩
        · rw [heq]
          have hjp : j ≠ p := by
            intro heq2
            subst heq2
            obtain ⟨_, hjtr, vel3, hjdata⟩ := hjm
            rw [hpm0] at hjtr hjdata
            rw [hm0data] at hjdata
            injection hjdata with h1 h2 h3 h4
            have htr2 : tr = t := by
              rw [← hjtr, hm0tr]
            exact hnomatch ⟨hty, htr2, vel2, oo2, by rw [hd, ← h1, ← h2], hoo⟩
          constructor
          · rw [List.length_set]
            exact hp
          · rw [List.getD_eq_getElem?_getD, List.getElem?_set_ne hjp,
              ← List.getD_eq_getElem?_getD]
            exact hpm0
      · rw [if_neg hoo]
        dsimp only
        constructor
        · rw [List.length_append]
          omega
        · rw [List.getD_eq_getElem?_getD, List.getElem?_append_left hp,
            ← List.getD_eq_getElem?_getD]
          exact hpm0
    | text a b => exact ⟨hp, hpm0⟩
    | sequenceNumber a => exact ⟨hp, hpm0⟩
    | channelPrefix a => exact ⟨hp, hpm0⟩
    | midiPort a => exact ⟨hp, hpm0⟩
    | setTempo a => exact ⟨hp, hpm0⟩
    | smpteOffset a b c d2 e2 => exact ⟨hp, hpm0⟩
    | timeSignature a b c d2 => exact ⟨hp, hpm0⟩
    | keySignature a b => exact ⟨hp, hpm0⟩
    | endOfTrack => exact ⟨hp, hpm0⟩
    | polyphonicKeyPressure a b c => exact ⟨hp, hpm0⟩
    | controlChange a b c => exact ⟨hp, hpm0⟩
    | programChange a b => exact ⟨hp, hpm0⟩
    | channelPressure a b => exact ⟨hp, hpm0⟩
    | pitchWheelChange a b => exact ⟨hp, hpm0⟩
    | uninit => exact ⟨hp, hpm0⟩
  · rw [if_neg hty]
    exact ⟨hp, hpm0⟩

/-- Replaying a log suffix that contains no matching note-off for
`(t, ch, key)` preserves a fixed open entry. -/
theorem foldCb_preserves_entry (t ch key : Nat) (m0 : MidiAbsoluteTimeMap)
    (hm0off : m0.OffEvent = none) (hm0tr : m0.track = t)
    (vel0 : Nat) (hm0data : m0.OnEvent.data = .note ch key vel0 0x90) :
    ∀ (L2 : List (MidiEvent × Nat × Nat × Nat)) (s : List MidiAbsoluteTimeMap) (p : Nat),
      (∀ q ∈ L2, ¬ matchingOff q t ch key) →
      p < s.length → s.getD p default = m0 →
      p < (foldCb mapCb s L2).length ∧ (foldCb mapCb s L2).getD p default = m0 := by
  intro L2
  induction L2 with
  | nil => intro s p _ hp hm; exact ⟨hp, hm⟩
  | cons q rest ih =>
    intro s p hno hp hm
    have hstep := mapCb_preserves_entry t ch key m0 hm0off hm0tr vel0 hm0data
      s q.1 q.2.1 q.2.2.1 q.2.2.2 p hp hm (hno q (by simp))
    have hfold : foldCb mapCb s (q :: rest)
        = foldCb mapCb (mapCb s q.1 q.2.1 q.2.2.1 q.2.2.2).1 rest := rfl
    rw [hfold]
    exact ih _ p (fun q2 hq2 => hno q2 (by simp [hq2])) hstep.1 hstep.2

/-- A NoteOn with nonzero velocity appends an open entry. -/
theorem mapCb_on_append (list : List MidiAbsoluteTimeMap) (e : MidiEvent)
    (tr tk us ch key vel : Nat) (hty : e.type = 0x90)
    (hd : e.data = .note ch key vel 0x90) (hv : vel ≠ 0) :
    (mapCb list e tr tk us).1
      = list ++ [{ track := tr, OnEvent := e, OffEvent := none,
                   startTime := us, endTime := U32MAX }] := by
  unfold mapCb
  rw [if_pos (Or.inr hty), hd]
  dsimp only
  rw [if_neg (by omega : ¬ ((0x90 : Nat) = 0x80 ∨ vel = 0))]

/-- A NoteOff-like event runs the closing scan over the whole list. -/
theorem mapCb_off (list : List MidiAbsoluteTimeMap) (e : MidiEvent)
    (tr tk us ch key vel oo : Nat) (hty : e.type = 0x80 ∨ e.type = 0x90)
    (hd : e.data = .note ch key vel oo) (hoo : oo = 0x80 ∨ vel = 0) :
    (mapCb list e tr tk us).1 = mapCloseScan e tr us ch key list.length list := by
  unfold mapCb
  rw [if_pos hty, hd]
  dsimp only
  rw [if_pos hoo]

/-- C8: the time-map pairing discipline.  (a) Every NoteOn with nonzero
velocity appends a new entry with `endTime = UINT32_MAX`.  (b) Every
NoteOff-like event (NoteOff, or data marked NoteOff, or velocity 0) closes
the most recently appended still-open entry matching `(track, channel, key)`
— if `j` is the greatest open match it is closed with the event and time, and
with no open match the list is unchanged.  (c) In a full
`Midi_MapAbsoluteTime` run, a NoteOn never followed in the callback log by a
matching note-off leaves an entry whose `endTime` is still `UINT32_MAX`. -/
theorem claim_C8 :
    (∀ (list : List MidiAbsoluteTimeMap) (e : MidiEvent) (tr tk us ch key vel : Nat),
      e.type = 0x90 → e.data = .note ch key vel 0x90 → vel ≠ 0 →
      (mapCb list e tr tk us).1
        = list ++ [{ track := tr, OnEvent := e, OffEvent := none,
                     startTime := us, endTime := U32MAX }]) ∧
    (∀ (list : List MidiAbsoluteTimeMap) (e : MidiEvent) (tr tk us ch key vel oo : Nat),
      (e.type = 0x80 ∨ e.type = 0x90) → e.data = .note ch key vel oo →
      (oo = 0x80 ∨ vel = 0) →
      ((∀ j, j < list.length → ¬ openMatch list j tr ch key) →
        (mapCb list e tr tk us).1 = list) ∧
      (∀ j, j < list.length → openMatch list j tr ch key →
        (∀ j2, j < j2 → j2 < list.length → ¬ openMatch list j2 tr ch key) →
        (mapCb list e tr tk us).1
          = list.set j { list.getD j default with OffEvent := some e, endTime := us })) ∧
    (∀ (midi : MidiFile) (fuel i : Nat) (e : MidiEvent) (tr tk us ch key vel : Nat),
      (mapPlayRun midi fuel).log[i]? = some (e, tr, tk, us) →
      e.type = 0x90 → e.data = .note ch key vel 0x90 → vel ≠ 0 →
      (∀ j q, i < j → (mapPlayRun midi fuel).log[j]? = some q →
        ¬ matchingOff q tr ch key) →
      ∃ m ∈ (Midi_MapAbsoluteTime midi fuel).2, m.endTime = U32MAX) := by
  refine ⟨mapCb_on_append, ?_, ?_⟩
  · intro list e tr tk us ch key vel oo hty hd hoo
    constructor
    · intro hnone
      rw [mapCb_off list e tr tk us ch key vel oo hty hd hoo]
      exact mapCloseScan_no_match e tr us ch key list.length list hnone
    · intro j hj hm hgr
      rw [mapCb_off list e tr tk us ch key vel oo hty hd hoo]
      exact mapCloseScan_match e tr us ch key list.length list j hj hm hgr
  · intro midi fuel i e tr tk us ch key vel hlog hty hd hv hno
    obtain ⟨hi, hgetEq⟩ := List.getElem?_eq_some_iff.mp hlog
    have hsplitL : (mapPlayRun midi fuel).log
        = (mapPlayRun midi fuel).log.take i
            ++ (e, tr, tk, us) :: (mapPlayRun midi fuel).log.drop (i + 1) := by
      conv_lhs => rw [← List.take_append_drop i (mapPlayRun midi fuel).log]
      rw [List.drop_eq_getElem_cons hi, hgetEq]
    have hfinal : (Midi_MapAbsoluteTime midi fuel).2
        = foldCb mapCb [] (mapPlayRun midi fuel).log := by
      exact play_cbState_foldCb midi U32MAX mapCb [] fuel
    rw [hfinal, hsplitL, foldCb_append]
    have hstep : foldCb mapCb (foldCb mapCb [] ((mapPlayRun midi fuel).log.take i))
          ((e, tr, tk, us) :: (mapPlayRun midi fuel).log.drop (i + 1))
        = foldCb mapCb
            (foldCb mapCb [] ((mapPlayRun midi fuel).log.take i)
              ++ [⟨tr, e, none, us, U32MAX⟩])
            ((mapPlayRun midi fuel).log.drop (i + 1)) := by
      show foldCb mapCb
        (mapCb (foldCb mapCb [] ((mapPlayRun midi fuel).log.take i)) e tr tk us).1 _ = _
      rw [mapCb_on_append _ e tr tk us ch key vel hty hd hv]
    rw [hstep]
    have hpres := foldCb_preserves_entry tr ch key ⟨tr, e, none, us, U32MAX⟩ rfl rfl vel hd
      ((mapPlayRun midi fuel).log.drop (i + 1))
      (foldCb mapCb [] ((mapPlayRun midi fuel).log.take i) ++ [⟨tr, e, none, us, U32MAX⟩])
      (foldCb mapCb [] ((mapPlayRun midi fuel).log.take i)).length
      (by
        intro q hq
        obtain ⟨k, hk⟩ := List.mem_iff_getElem?.mp hq
        rw [List.getElem?_drop] at hk
        exact hno (i + 1 + k) q (by omega) hk)
      (by simp)
      (by simp [List.getD_eq_getElem?_getD,
        List.getElem?_append_right (Nat.le_refl _)])
    obtain ⟨hplen, hpget⟩ := hpres
    refine ⟨⟨tr, e, none, us, U32MAX⟩, ?_, rfl⟩
    apply List.mem_iff_getElem?.mpr
    refine ⟨(foldCb mapCb [] ((mapPlayRun midi fuel).log.take i)).length, ?_⟩
    have h2 := hpget
    rw [List.getD_eq_getElem?_getD, List.getElem?_eq_getElem hplen, Option.getD_some] at h2
    rw [List.getElem?_eq_getElem hplen, h2]

/-! ### Structural round trip: helpers -/

theorem getD_of_drop_eq (buffer : List Nat) (read : Nat) (l : List Nat)
    (hbuf : buffer.drop read = l) (k d : Nat) :
    buffer.getD (read + k) d = l.getD k d := by
  rw [List.getD_eq_getElem?_getD, List.getD_eq_getElem?_getD, ← List.getElem?_drop, hbuf]

theorem drop_of_drop_eq (buffer : List Nat) (read : Nat) (l : List Nat)
    (hbuf : buffer.drop read = l) (k : Nat) :
    buffer.drop (read + k) = l.drop k := by
  rw [← hbuf, List.drop_drop]

theorem getD_append_right_add (l1 l2 : List Nat) (j d : Nat) :
    (l1 ++ l2).getD (l1.length + j) d = l2.getD j d := by
  rw [List.getD_eq_getElem?_getD, List.getD_eq_getElem?_getD,
    List.getElem?_append_right (by omega : l1.length ≤ l1.length + j)]
  congr 2
  omega

theorem getD_append_head (l1 : List Nat) (b : Nat) (l2 : List Nat) (k d : Nat)
    (hk : l1.length = k) : (l1 ++ b :: l2).getD k d = b := by
  subst hk
  have h := getD_append_right_add l1 (b :: l2) 0 d
  simpa using h

theorem drop_append_of_length (l1 l2 : List Nat) (k : Nat) (hk : l1.length = k) :
    (l1 ++ l2).drop k = l2 := List.drop_left' hk

/-- The `%.*s` copy undoes the zero padding added by `write_data_Text`. -/
theorem cstrTrunc_append_zeros (txt : List Nat) (n : Nat)
    (h : ∀ b ∈ txt, 0 < b ∧ b < 256) :
    cstrTrunc (txt ++ List.replicate n 0) = txt := by
  induction txt with
  | nil =>
    cases n with
    | zero => rfl
    | succ n => simp [cstrTrunc]
  | cons b rest ih =>
    have hb := h b (by simp)
    simp only [List.cons_append, cstrTrunc]
    rw [if_neg (by omega), List.append_eq, ih (fun x hx => h x (by simp [hx]))]
    congr 1
    omega

/-- One `MidiTrack_Read` iteration over an encoded meta event (first written
byte `0xFF`, then the type, then the body): it consumes exactly the encoded
bytes, appends the event, and leaves the running status unchanged. -/
theorem trackGo_meta_step (buffer : List Nat) (fuel read rs : Nat) (events : List MidiEvent)
    (e : MidiEvent) (body tail : List Nat)
    (hdt : e.deltaTime < U32)
    (hw : writeEventData e.type e.data = 0xFF :: e.type :: body)
    (hty : e.type < 256)
    (hint : interfaceExists e.type = true)
    (hrd : ∀ tail2, readEventData e.type e.type (body ++ tail2) = some (e.data, body.length))
    (hbuf : buffer.drop read = encodeEvent e ++ tail)
    (hlen : read + (encodeEvent e).length + tail.length = buffer.length) :
    MidiTrack_Read.go buffer buffer.length (fuel + 1) read rs events =
      if read + (encodeEvent e).length < buffer.length then
        MidiTrack_Read.go buffer buffer.length fuel (read + (encodeEvent e).length) rs
          (events ++ [e])
      else some (events ++ [e]) := by
  have henc : encodeEvent e ++ tail
      = vlqBytes e.deltaTime ++ (0xFF :: e.type :: (body ++ tail)) := by
    unfold encodeEvent
    rw [hw]
    simp
  have hdroplen : (buffer.drop read).length = buffer.length - read := List.length_drop ..
  have htake : (buffer.drop read).take (buffer.length - read) = buffer.drop read := by
    rw [← hdroplen, List.take_length]
  have henclen : (encodeEvent e).length = vlqLen e.deltaTime + (2 + body.length) := by
    unfold encodeEvent
    rw [List.length_append, vlqBytes_length, hw]
    simp
    omega
  rw [MidiTrack_Read.go, htake, hbuf, henc, vlq_roundtrip_general e.deltaTime hdt]
  dsimp only
  have hb0 : buffer.getD (read + vlqLen e.deltaTime) 0 = 0xFF := by
    rw [getD_of_drop_eq buffer read _ hbuf, henc,
      getD_append_head _ _ _ _ _ (vlqBytes_length e.deltaTime)]
  have hb1 : buffer.getD (read + vlqLen e.deltaTime + 1) 0 = e.type := by
    have h2 : read + vlqLen e.deltaTime + 1 = read + (vlqLen e.deltaTime + 1) := by omega
    have h3 : (vlqBytes e.deltaTime ++ [0xFF]).length = vlqLen e.deltaTime + 1 := by
      simp [vlqBytes_length]
    have h4 : encodeEvent e ++ tail
        = (vlqBytes e.deltaTime ++ [0xFF]) ++ (e.type :: (body ++ tail)) := by
      rw [henc]
      simp
    rw [h2, getD_of_drop_eq buffer read _ hbuf, h4, getD_append_head _ _ _ _ _ h3]
  rw [hb0, hb1]
  have hstat : statusStep (0xFF % 256) (e.type % 256) rs = (2, e.type, e.type, rs) := by
    unfold statusStep
    rw [if_pos (by norm_num)]
    rw [Nat.mod_eq_of_lt hty]
  rw [hstat]
  dsimp only
  rw [if_pos hint]
  have hdrop2 : buffer.drop (read + vlqLen e.deltaTime + 2) = body ++ tail := by
    have h2 : read + vlqLen e.deltaTime + 2 = read + (vlqLen e.deltaTime + 2) := by omega
    have h3 : (vlqBytes e.deltaTime ++ [0xFF, e.type]).length = vlqLen e.deltaTime + 2 := by
      simp [vlqBytes_length]
    have h4 : encodeEvent e ++ tail
        = (vlqBytes e.deltaTime ++ [0xFF, e.type]) ++ (body ++ tail) := by
      rw [henc]
      simp
    rw [h2, drop_of_drop_eq buffer read _ hbuf, h4, drop_append_of_length _ _ _ h3]
  rw [hdrop2, hrd tail]
  dsimp only
  have hidx : read + vlqLen e.deltaTime + 2 + body.length = read + (encodeEvent e).length := by
    omega
  rw [hidx]

theorem lor_status (hi ch : Nat)
    (hhi : hi = 0x80 ∨ hi = 0x90 ∨ hi = 0xA0 ∨ hi = 0xB0 ∨ hi = 0xC0 ∨ hi = 0xD0 ∨ hi = 0xE0)
    (hch : ch < 16) : Nat.lor hi ch = hi + ch := by
  rcases hhi with h | h | h | h | h | h | h <;> subst h <;> revert ch <;> decide

theorem isTextType_lt (ty : Nat) (h : isTextType ty = true) : ty < 256 := by
  unfold isTextType at h
  simp only [Bool.or_eq_true, beq_iff_eq] at h
  omega

theorem interfaceExists_of_text (ty : Nat) (h : isTextType ty = true) :
    interfaceExists ty = true := by
  unfold interfaceExists
  rw [h]
  rfl

/-- `write_data_Text` on a well-formed text payload, non-SysEx2 framing. -/
theorem wr_text_meta (ty l : Nat) (txt : List Nat) (htt : isTextType ty = true)
    (hf : ty ≠ 0xF0) (hl : l ≤ 254) :
    writeEventData ty (.text l txt)
      = 0xFF :: ty :: (l :: (txt.take l ++ List.replicate (l - txt.length) 0)) := by
  unfold writeEventData write_data_Text
  rw [if_pos htt]
  dsimp only
  rw [if_neg hf, Nat.mod_eq_of_lt (isTextType_lt ty htt), Nat.mod_eq_of_lt (by omega : l < 256)]

/-- `write_data_Text` on a well-formed SysEx2 payload. -/
theorem wr_text_f0 (l : Nat) (txt : List Nat) (hl : l ≤ 254) :
    writeEventData 0xF0 (.text l txt)
      = 0xF0 :: (l :: (txt.take l ++ List.replicate (l - txt.length) 0)) := by
  unfold writeEventData write_data_Text
  rw [if_pos (by decide : isTextType 0xF0 = true)]
  dsimp only
  rw [if_pos rfl, Nat.mod_eq_of_lt (by omega : l < 256)]

/-- `read_data_Text` recovers a well-formed text payload from its own output. -/
theorem rd_text (ty l : Nat) (txt : List Nat) (htt : isTextType ty = true)
    (hl : l ≤ 254) (hlt : txt.length ≤ l) (hb : ∀ b ∈ txt, 0 < b ∧ b < 256) (t2 : List Nat) :
    readEventData ty ty ((l :: (txt.take l ++ List.replicate (l - txt.length) 0)) ++ t2)
      = some (.text l txt,
          (l :: (txt.take l ++ List.replicate (l - txt.length) 0)).length) := by
  have htake : txt.take l = txt := List.take_of_length_le hlt
  have hplen : (txt.take l ++ List.replicate (l - txt.length) 0).length = l := by
    rw [htake]
    simp
    omega
  unfold readEventData
  rw [if_pos htt]
  unfold read_data_Text
  rw [List.cons_append]
  dsimp only [List.getD_cons_zero, List.drop_succ_cons, List.drop_zero]
  rw [Nat.mod_eq_of_lt (by omega : l < 256), if_neg (by omega)]
  have hplen2 : (txt ++ List.replicate (l - txt.length) 0).length = l := by
    simp
    omega
  rw [List.take_left' hplen, htake, cstrTrunc_append_zeros txt _ hb]
  simp only [List.length_cons, hplen, hplen2, Option.some.injEq, Prod.mk.injEq]
  constructor
  · trivial
  · omega

theorem rd_seq (n : Nat) (hn : n < 65536) (t2 : List Nat) :
    readEventData 0x00 0x00 (([2, n / 256 % 256, n % 256] : List Nat) ++ t2)
      = some (.sequenceNumber n, 3) := by
  unfold readEventData read_data_SequenceNumber
  norm_num [isTextType]
  omega

theorem rd_chanPrefix (c : Nat) (hc : c < 256) (t2 : List Nat) :
    readEventData 0x20 0x20 (([1, c % 256] : List Nat) ++ t2)
      = some (.channelPrefix c, 2) := by
  unfold readEventData read_data_ChannelPrefix
  norm_num [isTextType]
  omega

theorem rd_midiPort (p : Nat) (hp : p < 256) (t2 : List Nat) :
    readEventData 0x21 0x21 (([1, p % 256] : List Nat) ++ t2)
      = some (.midiPort p, 2) := by
  unfold readEventData read_data_MidiPort
  norm_num [isTextType]
  omega

theorem rd_setTempo (tp : Nat) (htp : tp < 16777216) (t2 : List Nat) :
    readEventData 0x51 0x51 (([3, tp / 65536 % 256, tp / 256 % 256, tp % 256] : List Nat) ++ t2)
      = some (.setTempo tp, 4) := by
  unfold readEventData read_data_SetTempo
  norm_num [isTextType]
  omega

theorem rd_timeSig (nn dd cc bb : Nat) (h1 : nn < 256) (h2 : dd < 256) (h3 : cc < 256)
    (h4 : bb < 256) (t2 : List Nat) :
    readEventData 0x58 0x58 (([4, nn % 256, dd % 256, cc % 256, bb % 256] : List Nat) ++ t2)
      = some (.timeSignature nn dd cc bb, 5) := by
  unfold readEventData read_data_TimeSignature
  norm_num [isTextType]
  omega

theorem rd_keySig (sf mi : Nat) (h1 : sf < 256) (h2 : mi < 256) (t2 : List Nat) :
    readEventData 0x59 0x59 (([2, sf % 256, mi % 256] : List Nat) ++ t2)
      = some (.keySignature sf mi, 3) := by
  unfold readEventData read_data_KeySignature
  norm_num [isTextType]
  omega

theorem rd_eot (t2 : List Nat) :
    readEventData 0x2F 0x2F (([0] : List Nat) ++ t2) = some (.endOfTrack, 1) := by
  unfold readEventData read_data_EndOfTrack
  norm_num [isTextType]

theorem wr_note (ty ch k v : Nat) (hty : ty = 0x90 ∨ ty = 0x80) (hch : ch < 16)
    (hk : k < 256) (hv : v < 256) :
    writeEventData ty (.note ch k v ty) = (ty + ch) :: [k, v] := by
  rcases hty with h | h <;> subst h <;>
    simp [writeEventData, write_data_Note, isTextType,
      Nat.mod_eq_of_lt hk, Nat.mod_eq_of_lt hv, Nat.mod_eq_of_lt (show ch < 256 by omega),
      lor_status 0x90 ch (by norm_num) hch, lor_status 0x80 ch (by norm_num) hch]

theorem rd_note (ty ch k v : Nat) (hty : ty = 0x90 ∨ ty = 0x80) (hch : ch < 16)
    (hk : k < 256) (hv : v < 256) (t2 : List Nat) :
    readEventData ty (ty + ch) (([k, v] : List Nat) ++ t2) = some (.note ch k v ty, 2) := by
  rcases hty with h | h <;> subst h <;>
    (unfold readEventData read_data_Note
     norm_num [isTextType, loNibble, hiNibble]
     omega)

theorem wr_poly (ch k p : Nat) (hch : ch < 16) (hk : k < 256) (hp : p < 256) :
    writeEventData 0xA0 (.polyphonicKeyPressure ch k p) = (0xA0 + ch) :: [k, p] := by
  simp [writeEventData, write_data_PolyphonicKeyPressure, isTextType,
    Nat.mod_eq_of_lt hk, Nat.mod_eq_of_lt hp, Nat.mod_eq_of_lt (show ch < 256 by omega),
    lor_status 0xA0 ch (by norm_num) hch]

theorem rd_poly (ch k p : Nat) (hch : ch < 16) (hk : k < 256) (hp : p < 256) (t2 : List Nat) :
    readEventData 0xA0 (0xA0 + ch) (([k, p] : List Nat) ++ t2)
      = some (.polyphonicKeyPressure ch k p, 2) := by
  unfold readEventData read_data_PolyphonicKeyPressure
  norm_num [isTextType, loNibble, hiNibble]
  omega

theorem wr_cc (ch c v : Nat) (hch : ch < 16) (hc : c < 256) (hv : v < 256) :
    writeEventData 0xB0 (.controlChange ch c v) = (0xB0 + ch) :: [c, v] := by
  simp [writeEventData, write_data_ControlChange, isTextType,
    Nat.mod_eq_of_lt hc, Nat.mod_eq_of_lt hv, Nat.mod_eq_of_lt (show ch < 256 by omega),
    lor_status 0xB0 ch (by norm_num) hch]

theorem rd_cc (ch c v : Nat) (hch : ch < 16) (hc : c < 256) (hv : v < 256) (t2 : List Nat) :
    readEventData 0xB0 (0xB0 + ch) (([c, v] : List Nat) ++ t2)
      = some (.controlChange ch c v, 2) := by
  unfold readEventData read_data_ControlChange
  norm_num [isTextType, loNibble, hiNibble]
  omega

theorem wr_pc (ch p : Nat) (hch : ch < 16) (hp : p < 256) :
    writeEventData 0xC0 (.programChange ch p) = (0xC0 + ch) :: [p] := by
  simp [writeEventData, write_data_ProgramChange, isTextType,
    Nat.mod_eq_of_lt hp, Nat.mod_eq_of_lt (show ch < 256 by omega),
    lor_status 0xC0 ch (by norm_num) hch]

theorem rd_pc (ch p : Nat) (hch : ch < 16) (hp : p < 256) (t2 : List Nat) :
    readEventData 0xC0 (0xC0 + ch) (([p] : List Nat) ++ t2)
      = some (.programChange ch p, 1) := by
  unfold readEventData read_data_ProgramChange
  norm_num [isTextType, loNibble, hiNibble]
  omega

theorem wr_cp (ch p : Nat) (hch : ch < 16) (hp : p < 256) :
    writeEventData 0xD0 (.channelPressure ch p) = (0xD0 + ch) :: [p] := by
  simp [writeEventData, write_data_ChannelPressure, isTextType,
    Nat.mod_eq_of_lt hp, Nat.mod_eq_of_lt (show ch < 256 by omega),
    lor_status 0xD0 ch (by norm_num) hch]

theorem rd_cp (ch p : Nat) (hch : ch < 16) (hp : p < 256) (t2 : List Nat) :
    readEventData 0xD0 (0xD0 + ch) (([p] : List Nat) ++ t2)
      = some (.channelPressure ch p, 1) := by
  unfold readEventData read_data_ChannelPressure
  norm_num [isTextType, loNibble, hiNibble]
  omega

theorem wr_pw (ch w : Nat) (hch : ch < 16) :
    writeEventData 0xE0 (.pitchWheelChange ch w) = (0xE0 + ch) :: [w % 128, w / 128 % 256] := by
  simp [writeEventData, write_data_PitchWheelChange, isTextType,
    Nat.mod_eq_of_lt (show ch < 256 by omega), lor_status 0xE0 ch (by norm_num) hch]

theorem rd_pw (ch w : Nat) (hch : ch < 16) (hw : w < 32768) (t2 : List Nat) :
    readEventData 0xE0 (0xE0 + ch) (([w % 128, w / 128 % 256] : List Nat) ++ t2)
      = some (.pitchWheelChange ch w, 2) := by
  unfold readEventData read_data_PitchWheelChange
  norm_num [isTextType, loNibble, hiNibble]
  omega

/-- One `MidiTrack_Read` iteration over an encoded event whose first written
byte is a status byte `0x80 ≤ sb < 0xFF`: it consumes exactly the encoded
bytes, appends the event, and makes `sb` the new running status. -/
theorem trackGo_status_step (buffer : List Nat) (fuel read rs : Nat) (events : List MidiEvent)
    (e : MidiEvent) (sb : Nat) (body tail : List Nat)
    (hdt : e.deltaTime < U32)
    (hw : writeEventData e.type e.data = sb :: body)
    (hsb1 : 128 ≤ sb) (hsb2 : sb < 255)
    (hct : hiNibble sb = e.type)
    (hint : interfaceExists e.type = true)
    (hrd : ∀ tail2, readEventData e.type sb (body ++ tail2) = some (e.data, body.length))
    (hbuf : buffer.drop read = encodeEvent e ++ tail)
    (hlen : read + (encodeEvent e).length + tail.length = buffer.length) :
    MidiTrack_Read.go buffer buffer.length (fuel + 1) read rs events =
      if read + (encodeEvent e).length < buffer.length then
        MidiTrack_Read.go buffer buffer.length fuel (read + (encodeEvent e).length) sb
          (events ++ [e])
      else some (events ++ [e]) := by
  have henc : encodeEvent e ++ tail
      = vlqBytes e.deltaTime ++ (sb :: (body ++ tail)) := by
    unfold encodeEvent
    rw [hw]
    simp
  have hdroplen : (buffer.drop read).length = buffer.length - read := List.length_drop ..
  have htake : (buffer.drop read).take (buffer.length - read) = buffer.drop read := by
    rw [← hdroplen, List.take_length]
  have henclen : (encodeEvent e).length = vlqLen e.deltaTime + (1 + body.length) := by
    unfold encodeEvent
    rw [List.length_append, vlqBytes_length, hw]
    simp
    omega
  rw [MidiTrack_Read.go, htake, hbuf, henc, vlq_roundtrip_general e.deltaTime hdt]
  dsimp only
  have hb0 : buffer.getD (read + vlqLen e.deltaTime) 0 = sb := by
    rw [getD_of_drop_eq buffer read _ hbuf, henc,
      getD_append_head _ _ _ _ _ (vlqBytes_length e.deltaTime)]
  rw [hb0]
  have hstat : statusStep (sb % 256) (buffer.getD (read + vlqLen e.deltaTime + 1) 0 % 256) rs
      = (1, e.type, sb, sb) := by
    unfold statusStep
    rw [Nat.mod_eq_of_lt (by omega : sb < 256)]
    rw [if_neg (by omega), if_neg (by omega), hct]
  rw [hstat]
  dsimp only
  rw [if_pos hint]
  have hdrop2 : buffer.drop (read + vlqLen e.deltaTime + 1) = body ++ tail := by
    have h2 : read + vlqLen e.deltaTime + 1 = read + (vlqLen e.deltaTime + 1) := by omega
    have h3 : (vlqBytes e.deltaTime ++ [sb]).length = vlqLen e.deltaTime + 1 := by
      simp [vlqBytes_length]
    have h4 : encodeEvent e ++ tail
        = (vlqBytes e.deltaTime ++ [sb]) ++ (body ++ tail) := by
      rw [henc]
      simp
    rw [h2, drop_of_drop_eq buffer read _ hbuf, h4, drop_append_of_length _ _ _ h3]
  rw [hdrop2, hrd tail]
  dsimp only
  have hidx : read + vlqLen e.deltaTime + 1 + body.length = read + (encodeEvent e).length := by
    omega
  rw [hidx]

/-- One `MidiTrack_Read` iteration over any well-formed, round-trippable
encoded event: the decoder consumes exactly `encodeEvent e` and appends `e`
(for some resulting running status). -/
theorem trackGo_encode_step (buffer : List Nat) (fuel read rs : Nat) (events : List MidiEvent)
    (e : MidiEvent) (tail : List Nat)
    (hdt : e.deltaTime < U32)
    (hWF : dataWF e.type e.data)
    (hrt : eventRoundTrips e)
    (hbuf : buffer.drop read = encodeEvent e ++ tail)
    (hlen : read + (encodeEvent e).length + tail.length = buffer.length) :
    ∃ rs2, MidiTrack_Read.go buffer buffer.length (fuel + 1) read rs events =
      if read + (encodeEvent e).length < buffer.length then
        MidiTrack_Read.go buffer buffer.length fuel (read + (encodeEvent e).length) rs2
          (events ++ [e])
      else some (events ++ [e]) := by
  obtain ⟨dt, ty, data⟩ := e
  cases data with
  | text l txt =>
    obtain ⟨htt, hl, hlt, hb⟩ := hWF
    by_cases hf : ty = 0xF0
    · subst hf
      exact ⟨0xF0, trackGo_status_step buffer fuel read rs events ⟨dt, 0xF0, .text l txt⟩ 0xF0
        (l :: (txt.take l ++ List.replicate (l - txt.length) 0)) tail hdt
        (wr_text_f0 l txt hl) (show (128:Nat) ≤ 0xF0 by norm_num)
        (show (0xF0:Nat) < 255 by norm_num)
        (show hiNibble 0xF0 = 0xF0 by decide) (show interfaceExists 0xF0 = true by decide)
        (rd_text 0xF0 l txt (by decide) hl hlt hb) hbuf hlen⟩
    · exact ⟨rs, trackGo_meta_step buffer fuel read rs events ⟨dt, ty, .text l txt⟩
        (l :: (txt.take l ++ List.replicate (l - txt.length) 0)) tail hdt
        (wr_text_meta ty l txt htt hf hl) (isTextType_lt ty htt)
        (interfaceExists_of_text ty htt)
        (rd_text ty l txt htt hl hlt hb) hbuf hlen⟩
  | sequenceNumber n =>
    obtain ⟨hty0, hn⟩ := hWF
    subst hty0
    exact ⟨rs, trackGo_meta_step buffer fuel read rs events ⟨dt, 0x00, .sequenceNumber n⟩
      [2, n / 256 % 256, n % 256] tail hdt rfl (show (0x00:Nat) < 256 by norm_num)
      (show interfaceExists 0x00 = true by decide) (rd_seq n hn) hbuf hlen⟩
  | channelPrefix c =>
    obtain ⟨hty0, hc⟩ := hWF
    subst hty0
    exact ⟨rs, trackGo_meta_step buffer fuel read rs events ⟨dt, 0x20, .channelPrefix c⟩
      [1, c % 256] tail hdt rfl (show (0x20:Nat) < 256 by norm_num)
      (show interfaceExists 0x20 = true by decide) (rd_chanPrefix c hc) hbuf hlen⟩
  | midiPort p =>
    obtain ⟨hty0, hp⟩ := hWF
    subst hty0
    exact ⟨rs, trackGo_meta_step buffer fuel read rs events ⟨dt, 0x21, .midiPort p⟩
      [1, p % 256] tail hdt rfl (show (0x21:Nat) < 256 by norm_num)
      (show interfaceExists 0x21 = true by decide) (rd_midiPort p hp) hbuf hlen⟩
  | setTempo tp =>
    obtain ⟨hty0, htp⟩ := hWF
    subst hty0
    exact ⟨rs, trackGo_meta_step buffer fuel read rs events ⟨dt, 0x51, .setTempo tp⟩
      [3, tp / 65536 % 256, tp / 256 % 256, tp % 256] tail hdt rfl
      (show (0x51:Nat) < 256 by norm_num)
      (show interfaceExists 0x51 = true by decide) (rd_setTempo tp htp) hbuf hlen⟩
  | smpteOffset hr mn se fr ff => exact hrt.elim
  | timeSignature nn dd cc bb =>
    obtain ⟨hty0, h1, h2, h3, h4⟩ := hWF
    subst hty0
    exact ⟨rs, trackGo_meta_step buffer fuel read rs events
      ⟨dt, 0x58, .timeSignature nn dd cc bb⟩
      [4, nn % 256, dd % 256, cc % 256, bb % 256] tail hdt rfl
      (show (0x58:Nat) < 256 by norm_num)
      (show interfaceExists 0x58 = true by decide)
      (rd_timeSig nn dd cc bb h1 h2 h3 h4) hbuf hlen⟩
  | keySignature sf mi =>
    obtain ⟨hty0, h1, h2⟩ := hWF
    subst hty0
    exact ⟨rs, trackGo_meta_step buffer fuel read rs events ⟨dt, 0x59, .keySignature sf mi⟩
      [2, sf % 256, mi % 256] tail hdt rfl (show (0x59:Nat) < 256 by norm_num)
      (show interfaceExists 0x59 = true by decide) (rd_keySig sf mi h1 h2) hbuf hlen⟩
  | endOfTrack =>
    have hty0 : ty = 0x2F := hWF
    subst hty0
    exact ⟨rs, trackGo_meta_step buffer fuel read rs events ⟨dt, 0x2F, .endOfTrack⟩
      [0] tail hdt rfl (show (0x2F:Nat) < 256 by norm_num)
      (show interfaceExists 0x2F = true by decide) rd_eot hbuf hlen⟩
  | note ch k v oo =>
    obtain ⟨hty0, hch, hk, hv, hoo⟩ := hWF
    rcases hty0 with h | h
    · subst h
      have hoo2 : oo = 0x90 := hoo
      subst hoo2
      exact ⟨0x90 + ch, trackGo_status_step buffer fuel read rs events
        ⟨dt, 0x90, .note ch k v 0x90⟩ (0x90 + ch) [k, v] tail hdt
        (wr_note 0x90 ch k v (Or.inl rfl) hch hk hv)
        (show 128 ≤ 0x90 + ch by omega) (show 0x90 + ch < 255 by omega)
        (show hiNibble (0x90 + ch) = 0x90 by unfold hiNibble; omega)
        (show interfaceExists 0x90 = true by decide)
        (rd_note 0x90 ch k v (Or.inl rfl) hch hk hv) hbuf hlen⟩
    · subst h
      have hoo2 : oo = 0x80 := hoo
      subst hoo2
      exact ⟨0x80 + ch, trackGo_status_step buffer fuel read rs events
        ⟨dt, 0x80, .note ch k v 0x80⟩ (0x80 + ch) [k, v] tail hdt
        (wr_note 0x80 ch k v (Or.inr rfl) hch hk hv)
        (show 128 ≤ 0x80 + ch by omega) (show 0x80 + ch < 255 by omega)
        (show hiNibble (0x80 + ch) = 0x80 by unfold hiNibble; omega)
        (show interfaceExists 0x80 = true by decide)
        (rd_note 0x80 ch k v (Or.inr rfl) hch hk hv) hbuf hlen⟩
  | polyphonicKeyPressure ch k p =>
    obtain ⟨hty0, hch, hk, hp⟩ := hWF
    subst hty0
    exact ⟨0xA0 + ch, trackGo_status_step buffer fuel read rs events
      ⟨dt, 0xA0, .polyphonicKeyPressure ch k p⟩ (0xA0 + ch) [k, p] tail hdt
      (wr_poly ch k p hch hk hp)
      (show 128 ≤ 0xA0 + ch by omega) (show 0xA0 + ch < 255 by omega)
      (show hiNibble (0xA0 + ch) = 0xA0 by unfold hiNibble; omega)
      (show interfaceExists 0xA0 = true by decide)
      (rd_poly ch k p hch hk hp) hbuf hlen⟩
  | controlChange ch c v =>
    obtain ⟨hty0, hch, hc, hv⟩ := hWF
    subst hty0
    exact ⟨0xB0 + ch, trackGo_status_step buffer fuel read rs events
      ⟨dt, 0xB0, .controlChange ch c v⟩ (0xB0 + ch) [c, v] tail hdt
      (wr_cc ch c v hch hc hv)
      (show 128 ≤ 0xB0 + ch by omega) (show 0xB0 + ch < 255 by omega)
      (show hiNibble (0xB0 + ch) = 0xB0 by unfold hiNibble; omega)
      (show interfaceExists 0xB0 = true by decide)
      (rd_cc ch c v hch hc hv) hbuf hlen⟩
  | programChange ch p =>
    obtain ⟨hty0, hch, hp⟩ := hWF
    subst hty0
    exact ⟨0xC0 + ch, trackGo_status_step buffer fuel read rs events
      ⟨dt, 0xC0, .programChange ch p⟩ (0xC0 + ch) [p] tail hdt
      (wr_pc ch p hch hp)
      (show 128 ≤ 0xC0 + ch by omega) (show 0xC0 + ch < 255 by omega)
      (show hiNibble (0xC0 + ch) = 0xC0 by unfold hiNibble; omega)
      (show interfaceExists 0xC0 = true by decide)
      (rd_pc ch p hch hp) hbuf hlen⟩
  | channelPressure ch p =>
    obtain ⟨hty0, hch, hp⟩ := hWF
    subst hty0
    exact ⟨0xD0 + ch, trackGo_status_step buffer fuel read rs events
      ⟨dt, 0xD0, .channelPressure ch p⟩ (0xD0 + ch) [p] tail hdt
      (wr_cp ch p hch hp)
      (show 128 ≤ 0xD0 + ch by omega) (show 0xD0 + ch < 255 by omega)
      (show hiNibble (0xD0 + ch) = 0xD0 by unfold hiNibble; omega)
      (show interfaceExists 0xD0 = true by decide)
      (rd_cp ch p hch hp) hbuf hlen⟩
  | pitchWheelChange ch w =>
    obtain ⟨hty0, hch, hwb⟩ := hWF
    subst hty0
    exact ⟨0xE0 + ch, trackGo_status_step buffer fuel read rs events
      ⟨dt, 0xE0, .pitchWheelChange ch w⟩ (0xE0 + ch) [w % 128, w / 128 % 256] tail hdt
      (wr_pw ch w hch)
      (show 128 ≤ 0xE0 + ch by omega) (show 0xE0 + ch < 255 by omega)
      (show hiNibble (0xE0 + ch) = 0xE0 by unfold hiNibble; omega)
      (show interfaceExists 0xE0 = true by decide)
      (rd_pw ch w hch hrt) hbuf hlen⟩
  | uninit => exact hWF.elim

theorem encodeEvent_length_pos (e : MidiEvent) : 1 ≤ (encodeEvent e).length := by
  unfold encodeEvent vlqBytes
  simp [List.length_append]
  omega

/-- `MidiTrack_Read` decodes a saved track body back to exactly its event
list, for any suffix position of the buffer: the whole-track induction over
the encoded events. -/
theorem trackGo_encode_all (buffer : List Nat) (evs : List MidiEvent) :
    ∀ (read rs fuel : Nat) (events : List MidiEvent),
      (∀ e ∈ evs, e.deltaTime < U32 ∧ dataWF e.type e.data ∧ eventRoundTrips e) →
      buffer.drop read = encodeTrackBody evs →
      read + (encodeTrackBody evs).length = buffer.length →
      evs.length + 1 ≤ fuel →
      MidiTrack_Read.go buffer buffer.length fuel read rs events = some (events ++ evs) := by
  induction evs with
  | nil =>
    intro read rs fuel events _ hdrop hlen hfuel
    obtain ⟨f, rfl⟩ : ∃ f, fuel = f + 1 := ⟨fuel - 1, by omega⟩
    rw [MidiTrack_Read.go, hdrop]
    simp [encodeTrackBody, ReadVariableLength, ReadVariableLength.go]
  | cons e evs ih =>
    intro read rs fuel events hwf hdrop hlen hfuel
    obtain ⟨f, rfl⟩ : ∃ f, fuel = f + 1 := ⟨fuel - 1, by omega⟩
    have hbody : encodeTrackBody (e :: evs) = encodeEvent e ++ encodeTrackBody evs := by
      simp [encodeTrackBody]
    rw [hbody] at hdrop
    have hlen2 : read + (encodeEvent e).length + (encodeTrackBody evs).length
        = buffer.length := by
      rw [hbody] at hlen
      simp [List.length_append] at hlen
      omega
    obtain ⟨he1, he2, he3⟩ := hwf e (by simp)
    obtain ⟨rs2, hstep⟩ := trackGo_encode_step buffer f read rs events e (encodeTrackBody evs)
      he1 he2 he3 hdrop hlen2
    rw [hstep]
    by_cases hlt : read + (encodeEvent e).length < buffer.length
    · rw [if_pos hlt]
      have hdrop2 : buffer.drop (read + (encodeEvent e).length) = encodeTrackBody evs := by
        have h := drop_of_drop_eq buffer read _ hdrop (encodeEvent e).length
        rwa [drop_append_of_length _ _ _ rfl] at h
      rw [ih (read + (encodeEvent e).length) rs2 f (events ++ [e])
        (fun x hx => hwf x (by simp [hx])) hdrop2 (by omega)
        (by simp at hfuel; omega)]
      simp
    · rw [if_neg hlt]
      cases evs with
      | nil => simp
      | cons e2 evs2 =>
        exfalso
        have h1 := encodeEvent_length_pos e2
        have h2 : 1 ≤ (encodeTrackBody (e2 :: evs2)).length := by
          simp [encodeTrackBody, List.length_append]
          omega
        omega

theorem u32_roundtrip (v : Nat) (hv : v < U32) :
    u32fromarray (v / 16777216 % 256) (v / 65536 % 256) (v / 256 % 256) (v % 256) = v := by
  unfold u32fromarray U32 at *
  omega

theorem u16_roundtrip (v : Nat) (hv : v < 65536) :
    u16fromarray (v / 256 % 256) (v % 256) = v := by
  unfold u16fromarray
  omega

theorem set_append_len {α : Type} (l1 l2 : List α) (a x : α) :
    (l1 ++ a :: l2).set l1.length x = l1 ++ x :: l2 := by
  induction l1 with
  | nil => rfl
  | cons b l ihl => simp [List.set, ihl]

theorem chunk_simp (evs : List MidiEvent)
    (h : (encodeTrackBody evs).length < U32) :
    (encodeTrackBody evs).take ((encodeTrackBody evs).length % U32) = encodeTrackBody evs := by
  rw [Nat.mod_eq_of_lt h, List.take_length]

/-- A whole saved track re-read by `MidiTrack_Read` gives back its events. -/
theorem track_read_of_encode (trackFuel : Nat) (evs : List MidiEvent)
    (hwf : ∀ e ∈ evs, e.deltaTime < U32 ∧ dataWF e.type e.data ∧ eventRoundTrips e)
    (htf : evs.length + 1 ≤ trackFuel) :
    MidiTrack_Read trackFuel (encodeTrackBody evs) (encodeTrackBody evs).length
      = some evs := by
  unfold MidiTrack_Read
  have h := trackGo_encode_all (encodeTrackBody evs) evs 0 0 trackFuel [] hwf rfl
    (by simp) htf
  simpa using h

/-- One `MTrk` chunk of `MidiFile_Save` consumed by the chunk loop of
`MidiFile_Open`: the track slot is filled with exactly the saved events and
the `uint8_t` track counter advances. -/
theorem openGo_track_step (trackFuel fuel : Nat) (evs : List MidiEvent) (rest : List Nat)
    (format ntrks ppq tn : Nat) (tracks : List MidiTrack)
    (htn : tn < ntrks)
    (hwf : ∀ e ∈ evs, e.deltaTime < U32 ∧ dataWF e.type e.data ∧ eventRoundTrips e)
    (hblen : (encodeTrackBody evs).length < U32)
    (htf : evs.length + 1 ≤ trackFuel) :
    MidiFile_Open.go trackFuel (fuel + 1)
      (([0x4D, 0x54, 0x72, 0x6B] ++ u32toarray (encodeTrackBody evs).length ++
        (encodeTrackBody evs).take ((encodeTrackBody evs).length % U32)) ++ rest)
      ⟨format, ntrks, ppq, some tracks, tn⟩
      = MidiFile_Open.go trackFuel fuel rest
        ⟨format, ntrks, ppq, some (tracks.set tn ⟨evs⟩), (tn + 1) % 256⟩ := by
  rw [chunk_simp evs hblen]
  have hbytes : ([0x4D, 0x54, 0x72, 0x6B] ++ u32toarray (encodeTrackBody evs).length ++
        encodeTrackBody evs) ++ rest
      = 0x4D :: 0x54 :: 0x72 :: 0x6B :: ((encodeTrackBody evs).length / 16777216 % 256) ::
        ((encodeTrackBody evs).length / 65536 % 256) ::
        ((encodeTrackBody evs).length / 256 % 256) ::
        ((encodeTrackBody evs).length % 256) :: (encodeTrackBody evs ++ rest) := by
    simp [u32toarray]
  rw [hbytes, MidiFile_Open.go]
  simp only [List.length_cons, List.length_append, List.take_succ_cons, List.take_zero,
    List.drop_succ_cons, List.drop_zero, List.getD_cons_zero, List.getD_cons_succ]
  rw [if_neg (by omega)]
  rw [if_neg (by omega)]
  rw [if_neg (by decide)]
  rw [if_pos trivial]
  rw [if_neg (by omega)]
  rw [u32_roundtrip _ hblen]
  rw [if_neg (by omega)]
  rw [List.take_left, track_read_of_encode trackFuel evs hwf htf]
  dsimp only
  rw [List.drop_left]

/-- The chunk loop of `MidiFile_Open` consumes the saved `MTrk` chunks one by
one, filling the calloc'd track slots in order. -/
theorem openGo_all_tracks (trackFuel : Nat) (format ntrks ppq : Nat) (hn : ntrks ≤ 256) :
    ∀ (todo done : List MidiTrack) (fuel : Nat),
      done.length + todo.length = ntrks →
      (∀ tr ∈ todo,
        (∀ e ∈ tr.Events, e.deltaTime < U32 ∧ dataWF e.type e.data ∧ eventRoundTrips e)
        ∧ (encodeTrackBody tr.Events).length < U32
        ∧ tr.Events.length + 1 ≤ trackFuel) →
      todo.length + 1 ≤ fuel →
      MidiFile_Open.go trackFuel fuel
        ((todo.map fun tr =>
          [0x4D, 0x54, 0x72, 0x6B] ++ u32toarray (encodeTrackBody tr.Events).length ++
          (encodeTrackBody tr.Events).take ((encodeTrackBody tr.Events).length % U32)).flatten)
        ⟨format, ntrks, ppq, some (done ++ List.replicate (ntrks - done.length) ⟨[]⟩),
          done.length % 256⟩
      = some ⟨format, ntrks, ppq, done ++ todo⟩ := by
  intro todo
  induction todo with
  | nil =>
    intro done fuel hcount hwf hfuel
    obtain ⟨f, rfl⟩ : ∃ f, fuel = f + 1 := ⟨fuel - 1, by omega⟩
    have h0 : ntrks - done.length = 0 := by simp at hcount; omega
    rw [MidiFile_Open.go, if_pos (by simp), h0]
    simp
  | cons tr todo2 ih =>
    intro done fuel hcount hwf hfuel
    obtain ⟨f, rfl⟩ : ∃ f, fuel = f + 1 := ⟨fuel - 1, by omega⟩
    obtain ⟨trEvs⟩ := tr
    simp only [List.map_cons, List.flatten_cons]
    obtain ⟨hwf1, hblen1, htf1⟩ := hwf ⟨trEvs⟩ (by simp)
    have htn : done.length < ntrks := by simp at hcount; omega
    have hmod : done.length % 256 = done.length := Nat.mod_eq_of_lt (by omega)
    rw [hmod]
    have hstep := openGo_track_step trackFuel f trEvs
      ((todo2.map fun tr =>
        [0x4D, 0x54, 0x72, 0x6B] ++ u32toarray (encodeTrackBody tr.Events).length ++
        (encodeTrackBody tr.Events).take ((encodeTrackBody tr.Events).length % U32)).flatten)
      format ntrks ppq done.length
      (done ++ List.replicate (ntrks - done.length) ⟨[]⟩) htn hwf1 hblen1 htf1
    rw [hstep]
    have hrep : ntrks - done.length = (ntrks - (done.length + 1)) + 1 := by omega
    have hset : (done ++ List.replicate (ntrks - done.length) (⟨[]⟩ : MidiTrack)).set
          done.length ⟨trEvs⟩
        = (done ++ [⟨trEvs⟩]) ++
          List.replicate (ntrks - (done ++ [(⟨trEvs⟩ : MidiTrack)]).length) ⟨[]⟩ := by
      rw [hrep, List.replicate_succ, set_append_len]
      simp
    rw [hset]
    have harr : (done.length + 1) % 256 = (done ++ [(⟨trEvs⟩ : MidiTrack)]).length % 256 := by
      simp
    rw [harr]
    rw [ih (done ++ [MidiTrack.mk trEvs]) f (by simp at hcount ⊢; omega)
      (fun x hx => hwf x (by simp [hx])) (by simp at hfuel ⊢; omega)]
    simp

/-- `MidiFile_Open` applied to `MidiFile_Save f` recovers `f`, under the
amended claim's side conditions. -/
theorem open_of_save (f : MidiFile) (F T : Nat)
    (hfmt : f.Format < 65536) (hppq : f.PulsesPerQuarterNote < 65536)
    (hcnt : f.nTrks = f.Tracks.length)
    (hn256 : f.nTrks ≤ 256)
    (hfmt0 : ¬(f.Format = 0 ∧ f.nTrks ≠ 1))
    (hwf : ∀ tr ∈ f.Tracks, ∀ e ∈ tr.Events,
      e.deltaTime < U32 ∧ dataWF e.type e.data ∧ eventRoundTrips e)
    (hblen : ∀ tr ∈ f.Tracks, (encodeTrackBody tr.Events).length < U32)
    (hT : ∀ tr ∈ f.Tracks, tr.Events.length + 1 ≤ T)
    (hF : f.Tracks.length + 2 ≤ F) :
    MidiFile_Open F T (MidiFile_Save f) = some f := by
  obtain ⟨fF, fN, fP, fT⟩ := f
  dsimp only at hfmt hppq hcnt hn256 hfmt0 hwf hblen hT hF
  obtain ⟨f2, rfl⟩ : ∃ f2, F = f2 + 1 := ⟨F - 1, by omega⟩
  have hbytes : MidiFile_Save ⟨fF, fN, fP, fT⟩
      = 0x4D :: 0x54 :: 0x68 :: 0x64 :: 0 :: 0 :: 0 :: 6 ::
        (fF / 256 % 256) :: (fF % 256) :: (fN / 256 % 256) :: (fN % 256) ::
        (fP / 256 % 256) :: (fP % 256) ::
        ((fT.map fun tr =>
          [0x4D, 0x54, 0x72, 0x6B] ++ u32toarray (encodeTrackBody tr.Events).length ++
          (encodeTrackBody tr.Events).take ((encodeTrackBody tr.Events).length % U32)).flatten)
      := by
    simp [MidiFile_Save, u16toarray]
  unfold MidiFile_Open
  rw [hbytes, MidiFile_Open.go]
  simp only [List.take_succ_cons, List.take_zero, List.drop_succ_cons, List.drop_zero,
    List.getD_cons_zero, List.getD_cons_succ, List.length_cons]
  rw [if_neg (by omega)]
  rw [if_neg (by omega)]
  rw [if_pos trivial]
  rw [if_neg (by norm_num [u32fromarray])]
  rw [if_neg (by omega)]
  rw [u16_roundtrip fF hfmt, u16_roundtrip fN (by omega), u16_roundtrip fP hppq]
  rw [if_neg hfmt0]
  have hall := openGo_all_tracks T fF fN fP hn256 fT [] f2
    (by simp only [List.length_nil]; omega)
    (fun tr htr => ⟨hwf tr htr, hblen tr htr, hT tr htr⟩)
    (by omega)
  simpa using hall

/-- `MidiFile_Save` on the SMPTE file: the unimplemented SMPTE writer emits
nothing, so the saved track body is `00 00 FF 2F 00` (two delta times, one of
them followed by no event bytes at all). -/
theorem smpte_save_eq : MidiFile_Save smpteFile
    = [0x4D, 0x54, 0x68, 0x64, 0, 0, 0, 6, 0, 0, 0, 1, 0, 0x60,
       0x4D, 0x54, 0x72, 0x6B, 0, 0, 0, 5,
       0x00, 0x00, 0xFF, 0x2F, 0x00] := by
  have h0 : vlqBytes 0 = [0] := by
    simp [vlqBytes, vlqCont_zero]
  simp [MidiFile_Save, smpteFile, encodeTrackBody, encodeEvent, writeEventData, h0,
    u16toarray, u32toarray, U32, isTextType, write_data_EndOfTrack, write_data_SMPTEoffset]

/-- Re-reading the saved SMPTE track loops forever: at `read = 0` the decoder
reads delta `00`, sees the data byte `00` under running status `0`, fails in
`read_data_SequenceNumber`, and backs up to `read = 0` again (`read += -1`).
No amount of fuel makes it terminate. -/
theorem smpte_track_loop : ∀ (fuel : Nat) (events : List MidiEvent),
    MidiTrack_Read.go [0x00, 0x00, 0xFF, 0x2F, 0x00] 5 fuel 0 0 events = none := by
  intro fuel
  induction fuel with
  | zero => intro events; rfl
  | succ f ih =>
    intro events
    have hstep : MidiTrack_Read.go [0x00, 0x00, 0xFF, 0x2F, 0x00] 5 (f + 1) 0 0 events
        = MidiTrack_Read.go [0x00, 0x00, 0xFF, 0x2F, 0x00] 5 f 0 0
            (events ++ [⟨0, 0, .uninit⟩]) := rfl
    rw [hstep, ih]

/-- For every pair of fuels, re-opening the saved SMPTE file fails (the track
loop diverges, or the fuel runs out earlier). -/
theorem smpte_reopen_none (F T : Nat) :
    MidiFile_Open F T (MidiFile_Save smpteFile) = none := by
  rw [smpte_save_eq]
  match F with
  | 0 => rfl
  | 1 => rfl
  | f + 2 =>
    have hmt : MidiTrack_Read T [0x00, 0x00, 0xFF, 0x2F, 0x00] 5 = none :=
      smpte_track_loop T []
    have hstep : MidiFile_Open (f + 2) T
        [0x4D, 0x54, 0x68, 0x64, 0, 0, 0, 6, 0, 0, 0, 1, 0, 0x60,
         0x4D, 0x54, 0x72, 0x6B, 0, 0, 0, 5,
         0x00, 0x00, 0xFF, 0x2F, 0x00]
        = (match MidiTrack_Read T [0x00, 0x00, 0xFF, 0x2F, 0x00] 5 with
           | none => none
           | some events => MidiFile_Open.go T f ([] : List Nat)
               { Format := 0, nTrks := 1, ppq := 96,
                 Tracks := some (([⟨[]⟩] : List MidiTrack).set 0 ⟨events⟩),
                 trackNumber := (0 + 1) % 256 }) := rfl
    rw [hstep, hmt]

/-- Witness for C8: a file with a single unterminated NoteOn yields an entry
with `endTime = UINT32_MAX`. -/
theorem claim_C8_witness :
    ∃ m ∈ (Midi_MapAbsoluteTime openNoteFile 5).2, m.endTime = U32MAX :=
  claim_C8.2.2 openNoteFile 5 0 ⟨0, 0x90, .note 0 60 64 0x90⟩ 0 0 0 0 60 64
    (by rfl) rfl rfl (by omega)
    (fun j q hj hq => by
      rw [List.getElem?_eq_none (by
        have h1 : (mapPlayRun openNoteFile 5).log.length = 1 := by rfl
        omega)] at hq
      exact Option.noConfusion hq)

/-- C3 counterexample: the decoder produces `smpteFile` from `smpteBytes`,
but saving that file and re-opening it never yields the file back — for every
pair of fuels the re-open fails, because the SMPTE writer emits nothing and
the re-read track loops forever at `read = 0`. -/
theorem claim_C3_counterexample :
    MidiFile_Open 10 10 smpteBytes = some smpteFile ∧
    ∀ F T, MidiFile_Open F T (MidiFile_Save smpteFile) ≠ some smpteFile :=
  ⟨by decide, fun F T => by rw [smpte_reopen_none F T]; exact Option.noConfusion⟩

/-- C3 (amended): `MidiFile_Open (MidiFile_Save f) = f` holds once the events
the broken or lossy writers cannot reproduce are excluded: no SMPTE-offset
payloads (`write_data_SMPTEoffset` is an empty TODO), no uninitialized
payloads, pitch wheels below 32768 (the writer truncates `wheel / 128` to a
char), well-formed decoder-shaped payloads with delta times below 2^32, a
consistent header (`nTrks` equal to the number of tracks, at most 256, the
u16 fields in range, and not format 0 with `nTrks ≠ 1`), re-encoded track
bodies shorter than 2^32, and enough fuel for every chunk and event. -/
theorem claim_C3_amended (f : MidiFile) (F T : Nat)
    (hfmt : f.Format < 65536) (hppq : f.PulsesPerQuarterNote < 65536)
    (hcnt : f.nTrks = f.Tracks.length)
    (hn256 : f.nTrks ≤ 256)
    (hfmt0 : ¬(f.Format = 0 ∧ f.nTrks ≠ 1))
    (hwf : ∀ tr ∈ f.Tracks, ∀ e ∈ tr.Events,
      e.deltaTime < U32 ∧ dataWF e.type e.data ∧ eventRoundTrips e)
    (hblen : ∀ tr ∈ f.Tracks, (encodeTrackBody tr.Events).length < U32)
    (hT : ∀ tr ∈ f.Tracks, tr.Events.length + 1 ≤ T)
    (hF : f.Tracks.length + 2 ≤ F) :
    MidiFile_Open F T (MidiFile_Save f) = some f :=
  open_of_save f F T hfmt hppq hcnt hn256 hfmt0 hwf hblen hT hF

/-- Witness for C3: the S1 sample file round-trips through save and open. -/
theorem claim_C3_witness :
    MidiFile_Open 10 10 (MidiFile_Save sampleFile) = some sampleFile :=
  claim_C3_amended sampleFile 10 10 (by norm_num [sampleFile]) (by norm_num [sampleFile])
    (by norm_num [sampleFile]) (by norm_num [sampleFile]) (by norm_num [sampleFile])
    (by
      intro tr htr e he
      simp only [sampleFile, List.mem_singleton] at htr
      subst htr
      simp only [List.mem_cons, List.not_mem_nil, or_false] at he
      rcases he with rfl | rfl | rfl
      · exact ⟨by norm_num [U32], ⟨Or.inl rfl, by norm_num, by norm_num, by norm_num, rfl⟩,
          trivial⟩
      · exact ⟨by norm_num [U32], ⟨Or.inr rfl, by norm_num, by norm_num, by norm_num, rfl⟩,
          trivial⟩
      · exact ⟨by norm_num [U32], rfl, trivial⟩)
    (by
      intro tr htr
      simp only [sampleFile, List.mem_singleton] at htr
      subst htr
      simp [encodeTrackBody, encodeEvent, writeEventData, isTextType, vlqBytes_length,
        vlqLen_small, U32, write_data_EndOfTrack, write_data_Note])
    (by
      intro tr htr
      simp only [sampleFile, List.mem_singleton] at htr
      subst htr
      norm_num)
    (by norm_num [sampleFile])

end EzMidi
